import Mathlib

/-!
# Verification of the marble-race simulator and its level editor

This file gives a shallow embedding, over exact rational arithmetic, of the
core logic of the marble-race repository (`level_editor.py`, `level_io.py`,
`marble_race.py`): the grid system, the geometry lookups, the undo/redo
command history, the level file save/load functions, the marble emission
scheduler and the race finishing logic.  Numeric values that are Python
floats are modelled as rationals; Python's `round` builtin (round half to
even) is modelled exactly by `pyRound`.
-/

namespace MarbleRace

/-- Python's `round(x)` builtin: round half to even, as used by
`GridSystem.snap_point` and by `save_level` (`int(round(x))`). -/
def pyRound (q : ℚ) : ℤ :=
  if q - ⌊q⌋ < 1/2 then ⌊q⌋
  else if 1/2 < q - ⌊q⌋ then ⌊q⌋ + 1
  else if ⌊q⌋ % 2 = 0 then ⌊q⌋ else ⌊q⌋ + 1

lemma pyRound_intCast (k : ℤ) : pyRound (k : ℚ) = k := by
  simp [pyRound]

/-- `pyRound q` is a nearest integer to `q`: no integer is strictly closer. -/
lemma pyRound_nearest (q : ℚ) (k : ℤ) : |(pyRound q : ℚ) - q| ≤ |(k : ℚ) - q| := by
  have hf : ((⌊q⌋ : ℤ) : ℚ) ≤ q := Int.floor_le q
  have hf1 : q < ((⌊q⌋ : ℤ) : ℚ) + 1 := Int.lt_floor_add_one q
  have hk : k ≤ ⌊q⌋ ∨ ⌊q⌋ + 1 ≤ k := by omega
  have hkc : ((k : ℤ) : ℚ) ≤ ((⌊q⌋ : ℤ) : ℚ) ∨ ((⌊q⌋ : ℤ) : ℚ) + 1 ≤ ((k : ℤ) : ℚ) := by
    rcases hk with h | h
    · exact Or.inl (by exact_mod_cast h)
    · exact Or.inr (by exact_mod_cast h)
  unfold pyRound
  split_ifs with h1 h2 h3
  · -- fractional part < 1/2 : round down to the floor
    rcases hkc with h | h
    · rw [abs_of_nonpos (by linarith), abs_of_nonpos (by linarith)]; linarith
    · rw [abs_of_nonpos (by linarith), abs_of_nonneg (by linarith)]; linarith
  · -- fractional part > 1/2 : round up
    rcases hkc with h | h
    · rw [abs_of_nonneg (by push_cast; linarith), abs_of_nonpos (by linarith)]
      push_cast; linarith
    · rw [abs_of_nonneg (by push_cast; linarith), abs_of_nonneg (by linarith)]
      push_cast; linarith
  · -- exact tie, even floor : round down
    rcases hkc with h | h
    · rw [abs_of_nonpos (by linarith), abs_of_nonpos (by linarith)]; linarith
    · rw [abs_of_nonpos (by linarith), abs_of_nonneg (by linarith)]; linarith
  · -- exact tie, odd floor : round up
    rcases hkc with h | h
    · rw [abs_of_nonneg (by push_cast; linarith), abs_of_nonpos (by linarith)]
      push_cast; linarith
    · rw [abs_of_nonneg (by push_cast; linarith), abs_of_nonneg (by linarith)]
      push_cast; linarith

/-! ## Basic level-model data (`level_editor.py`, `level_io.py`) -/

/-- A 2D point; Python float coordinates are modelled as rationals. -/
abbrev Point := ℚ × ℚ

/-- A wall is the pair of its two endpoints (`(start, end)` tuples). -/
abbrev Wall := Point × Point

/-- A rotating platform record (`{"pos", "length", "angular_velocity"}`). -/
structure Platform where
  pos : Point
  length : ℚ
  angularVelocity : ℚ
  deriving DecidableEq, Repr

/-- A conveyor record (`{"start", "end", "speed"}`). -/
structure Conveyor where
  start : Point
  endPt : Point
  speed : ℚ
  deriving DecidableEq, Repr

/-- The singleton emitter record; `count` is a Python int. -/
structure Emitter where
  pos : Point
  angle : ℚ
  width : ℚ
  rate : ℚ
  count : ℤ
  speed : ℚ
  deriving DecidableEq, Repr

/-- `get_default_emitter` from `level_io.py`. -/
def get_default_emitter : Emitter :=
  { pos := (400, 80), angle := 90, width := 60, rate := 20, count := 100, speed := 50 }

/-! ## Grid system (`GridSystem` in `level_editor.py`) -/

/-- `GridSystem`: a cell size and an enabled flag. -/
structure GridSystem where
  size : ℚ
  enabled : Bool
  deriving DecidableEq, Repr

/-- `GridSystem.snap_point`: identity when disabled, otherwise round each
coordinate: `round(x / self.size) * self.size`. -/
def snap_point (g : GridSystem) (p : Point) : Point :=
  if g.enabled = false then p
  else ((pyRound (p.1 / g.size) : ℚ) * g.size, (pyRound (p.2 / g.size) : ℚ) * g.size)

lemma snap_point_enabled (g : GridSystem) (p : Point) (h : g.enabled = true) :
    snap_point g p =
      ((pyRound (p.1 / g.size) : ℚ) * g.size, (pyRound (p.2 / g.size) : ℚ) * g.size) := by
  simp [snap_point, h]

/-- Snapping a coordinate that is already a multiple of the cell size is a no-op. -/
lemma snap_coord_idem (s x : ℚ) (hs : s ≠ 0) :
    (pyRound ((pyRound (x / s) : ℚ) * s / s) : ℚ) * s = (pyRound (x / s) : ℚ) * s := by
  rw [mul_div_cancel_right₀ _ hs, pyRound_intCast]

/-- One snapped coordinate is a nearest multiple of the cell size. -/
lemma snap_coord_nearest (s x : ℚ) (hs : 0 < s) (k : ℤ) :
    |(pyRound (x / s) : ℚ) * s - x| ≤ |(k : ℚ) * s - x| := by
  have h1 : (pyRound (x / s) : ℚ) * s - x = ((pyRound (x / s) : ℚ) - x / s) * s := by
    field_simp
  have h2 : (k : ℚ) * s - x = ((k : ℚ) - x / s) * s := by
    field_simp
  rw [h1, h2, abs_mul, abs_mul]
  exact mul_le_mul_of_nonneg_right (pyRound_nearest (x / s) k) (abs_nonneg s)

/-- C9.  For every point `p` and cell size `> 0`, `GridSystem.snap_point` is
idempotent, each snapped coordinate is a nearest multiple of the cell size,
and `snap_point` is the identity when the grid is disabled. -/
theorem snap_point_spec (g : GridSystem) (p : Point) (hs : 0 < g.size) :
    snap_point g (snap_point g p) = snap_point g p ∧
    (g.enabled = true → ∀ k : ℤ,
      |(snap_point g p).1 - p.1| ≤ |(k : ℚ) * g.size - p.1| ∧
      |(snap_point g p).2 - p.2| ≤ |(k : ℚ) * g.size - p.2|) ∧
    (g.enabled = false → snap_point g p = p) := by
  have hs0 : g.size ≠ 0 := ne_of_gt hs
  refine ⟨?_, ?_, ?_⟩
  · cases he : g.enabled with
    | false => simp [snap_point, he]
    | true =>
      rw [snap_point_enabled g p he, snap_point_enabled g _ he]
      exact Prod.ext (snap_coord_idem g.size p.1 hs0) (snap_coord_idem g.size p.2 hs0)
  · intro he k
    rw [snap_point_enabled g p he]
    exact ⟨snap_coord_nearest g.size p.1 hs k, snap_coord_nearest g.size p.2 hs k⟩
  · intro he
    simp [snap_point, he]

/-- Witness for `snap_point_spec` at a concrete grid and point. -/
theorem snap_point_spec_witness :
    (0 : ℚ) < (20 : ℚ) ∧
    snap_point ⟨20, true⟩ (snap_point ⟨20, true⟩ (33, 52)) = snap_point ⟨20, true⟩ (33, 52) ∧
    snap_point ⟨20, true⟩ (33, 52) = (40, 60) := by
  refine ⟨by norm_num, (snap_point_spec ⟨20, true⟩ (33, 52) (by norm_num)).1, ?_⟩
  norm_num [snap_point, pyRound]

/-! ## Python list primitives

`list.remove` deletes the first element equal to the argument and raises
`ValueError` when none matches; `list.index` returns the first matching
position or raises; `list.insert(i, x)` inserts at `i`, clamping past the
end.  Raising is modelled by `Option`/`none`. -/

/-- `list.index(a)`: position of the first element equal to `a`. -/
def firstIdx {α : Type} [DecidableEq α] (a : α) : List α → Option ℕ
  | [] => none
  | b :: l => if b = a then some 0 else (firstIdx a l).map (· + 1)

/-- `list.remove(a)`: delete the first element equal to `a`. -/
def pyRemove {α : Type} [DecidableEq α] (a : α) : List α → Option (List α)
  | [] => none
  | b :: l => if b = a then some l else (pyRemove a l).map (b :: ·)

/-- `list.insert(i, a)`: insert at position `i`, appending when `i` is past
the end. -/
def pyInsert {α : Type} (i : ℕ) (a : α) (l : List α) : List α :=
  match i, l with
  | 0, l => a :: l
  | _ + 1, [] => [a]
  | i + 1, b :: l => b :: pyInsert i a l

section ListLemmas

variable {α : Type} [DecidableEq α]

lemma firstIdx_of_mem {a : α} {l : List α} (h : a ∈ l) : ∃ i, firstIdx a l = some i := by
  induction l with
  | nil => cases h
  | cons b t ih =>
    by_cases hb : b = a
    · exact ⟨0, by simp [firstIdx, hb]⟩
    · rcases List.mem_cons.1 h with h | h
      · exact absurd h.symm hb
      · rcases ih h with ⟨j, hj⟩
        exact ⟨j + 1, by simp [firstIdx, hb, hj]⟩

lemma pyRemove_append_self {a : α} {l : List α} (h : a ∉ l) :
    pyRemove a (l ++ [a]) = some l := by
  induction l with
  | nil => simp [pyRemove]
  | cons b t ih =>
    have hb : b ≠ a := fun e => h (e ▸ List.mem_cons_self b t)
    have ht : a ∉ t := fun e => h (List.mem_cons_of_mem b e)
    simp [pyRemove, hb, ih ht]

lemma pyRemove_pyInsert {a : α} {l : List α} {i : ℕ} (h : firstIdx a l = some i) :
    ∃ l', pyRemove a l = some l' ∧ pyInsert i a l' = l := by
  induction l generalizing i with
  | nil => simp [firstIdx] at h
  | cons b t ih =>
    by_cases hb : b = a
    · simp only [firstIdx, if_pos hb, Option.some.injEq] at h
      subst h
      exact ⟨t, by simp [pyRemove, hb], by simp [pyInsert, hb]⟩
    · simp only [firstIdx, if_neg hb] at h
      rcases Option.map_eq_some'.1 h with ⟨j, hj, hji⟩
      rcases ih hj with ⟨t', ht', hins⟩
      exact ⟨b :: t', by simp [pyRemove, hb, ht'], by
        subst hji; simpa [pyInsert] using hins⟩

lemma firstIdx_set {a n : α} {l : List α} {i : ℕ} (h : firstIdx a l = some i)
    (hn : n ∉ l) : firstIdx n (l.set i n) = some i := by
  induction l generalizing i with
  | nil => simp [firstIdx] at h
  | cons b t ih =>
    by_cases hb : b = a
    · simp only [firstIdx, if_pos hb, Option.some.injEq] at h
      subst h
      simp [List.set, firstIdx]
    · simp only [firstIdx, if_neg hb] at h
      rcases Option.map_eq_some'.1 h with ⟨j, hj, hji⟩
      subst hji
      have hnb : b ≠ n := fun e => hn (e ▸ List.mem_cons_self b t)
      have hnt : n ∉ t := fun e => hn (List.mem_cons_of_mem b e)
      simp [List.set, firstIdx, hnb, ih hj hnt]

lemma set_set_firstIdx {a n : α} {l : List α} {i : ℕ} (h : firstIdx a l = some i) :
    (l.set i n).set i a = l := by
  induction l generalizing i with
  | nil => simp [firstIdx] at h
  | cons b t ih =>
    by_cases hb : b = a
    · simp only [firstIdx, if_pos hb, Option.some.injEq] at h
      subst h
      simp [List.set, hb]
    · simp only [firstIdx, if_neg hb] at h
      rcases Option.map_eq_some'.1 h with ⟨j, hj, hji⟩
      subst hji
      simp [List.set, ih hj]

end ListLemmas

/-! ## Command pattern and `CommandHistory` (`level_editor.py`) -/

/-- The level-model fields of `LevelEditor` that commands mutate. -/
structure LevelState where
  walls : List Wall
  platforms : List Platform
  emitter : Emitter
  deriving DecidableEq, Repr

/-- The seven `Command` subclasses.  `ModifyWallCommand` keeps a mutable
`self.wall` field (reassigned by `execute`/`undo`); it is the first argument.
`ModifyPlatformCommand`'s property dicts are modelled as complete property
records (the documented command shape), with `self.platform` the element of
the platform list the command was built from, so `dict.update` is record
replacement.  `ModifyEmitterCommand` stores full copies of the emitter. -/
inductive EditCmd where
  | addWall (w : Wall)
  | deleteWall (w : Wall) (index : ℕ)
  | modifyWall (wall : Wall) (oldW newW : Wall)
  | addPlatform (p : Platform)
  | deletePlatform (p : Platform) (index : ℕ)
  | modifyPlatform (plat : Platform) (oldP newP : Platform)
  | modifyEmitter (oldE newE : Emitter)
  deriving DecidableEq, Repr

/-- `command.execute(editor)`: returns the new level state and the command
object as mutated by `execute` (`ModifyWallCommand.execute` reassigns
`self.wall = editor.walls[idx]`); `none` models a raised `ValueError`. -/
def execCmd : EditCmd → LevelState → Option (LevelState × EditCmd)
  | .addWall w, s => some ({ s with walls := s.walls ++ [w] }, .addWall w)
  | .deleteWall w i, s =>
      (pyRemove w s.walls).map fun ws => ({ s with walls := ws }, .deleteWall w i)
  | .modifyWall wall o n, s =>
      match firstIdx wall s.walls with
      | none => none
      | some i => some ({ s with walls := s.walls.set i n }, .modifyWall n o n)
  | .addPlatform p, s => some ({ s with platforms := s.platforms ++ [p] }, .addPlatform p)
  | .deletePlatform p i, s =>
      (pyRemove p s.platforms).map fun ps => ({ s with platforms := ps }, .deletePlatform p i)
  | .modifyPlatform plat o n, s =>
      match firstIdx plat s.platforms with
      | none => none
      | some i => some ({ s with platforms := s.platforms.set i n }, .modifyPlatform n o n)
  | .modifyEmitter o n, s => some ({ s with emitter := n }, .modifyEmitter o n)

/-- `command.undo(editor)`, with the same conventions as `execCmd`. -/
def undoCmd : EditCmd → LevelState → Option (LevelState × EditCmd)
  | .addWall w, s =>
      (pyRemove w s.walls).map fun ws => ({ s with walls := ws }, .addWall w)
  | .deleteWall w i, s => some ({ s with walls := pyInsert i w s.walls }, .deleteWall w i)
  | .modifyWall wall o n, s =>
      match firstIdx wall s.walls with
      | none => none
      | some i => some ({ s with walls := s.walls.set i o }, .modifyWall o o n)
  | .addPlatform p, s =>
      (pyRemove p s.platforms).map fun ps => ({ s with platforms := ps }, .addPlatform p)
  | .deletePlatform p i, s =>
      some ({ s with platforms := pyInsert i p s.platforms }, .deletePlatform p i)
  | .modifyPlatform plat o n, s =>
      match firstIdx plat s.platforms with
      | none => none
      | some i => some ({ s with platforms := s.platforms.set i o }, .modifyPlatform o o n)
  | .modifyEmitter o n, s => some ({ s with emitter := o }, .modifyEmitter o n)

/-- `CommandHistory`: the two stacks; the Python list end is the stack top. -/
structure CommandHistory where
  undoStack : List EditCmd
  redoStack : List EditCmd
  deriving DecidableEq, Repr

/-- `CommandHistory.execute`: apply the command, push it onto the undo
stack, clear the redo stack. -/
def historyExecute (c : EditCmd) (h : CommandHistory) (s : LevelState) :
    Option (CommandHistory × LevelState) :=
  (execCmd c s).map fun p => (⟨h.undoStack ++ [p.2], []⟩, p.1)

/-- `CommandHistory.undo`: pop the undo stack, undo, push onto the redo
stack; returns `false` leaving everything unchanged when the stack is empty. -/
def historyUndo (h : CommandHistory) (s : LevelState) :
    Option (CommandHistory × LevelState × Bool) :=
  match h.undoStack.getLast? with
  | none => some (h, s, false)
  | some c =>
    (undoCmd c s).map fun p => (⟨h.undoStack.dropLast, h.redoStack ++ [p.2]⟩, p.1, true)

/-- `CommandHistory.redo`: pop the redo stack, re-execute, push onto the
undo stack; returns `false` leaving everything unchanged when empty. -/
def historyRedo (h : CommandHistory) (s : LevelState) :
    Option (CommandHistory × LevelState × Bool) :=
  match h.redoStack.getLast? with
  | none => some (h, s, false)
  | some c =>
    (execCmd c s).map fun p => (⟨h.undoStack ++ [p.2], h.redoStack.dropLast⟩, p.1, true)

/-- `CommandHistory.clear`. -/
def historyClear : CommandHistory := ⟨[], []⟩

/-- Execute a sequence of commands through `CommandHistory.execute`. -/
def execSeq : List EditCmd → CommandHistory → LevelState → Option (CommandHistory × LevelState)
  | [], h, s => some (h, s)
  | c :: cs, h, s => (historyExecute c h s).bind fun p => execSeq cs p.1 p.2

/-- `n` successive calls to `CommandHistory.undo`. -/
def undoN : ℕ → CommandHistory → LevelState → Option (CommandHistory × LevelState)
  | 0, h, s => some (h, s)
  | n + 1, h, s => (historyUndo h s).bind fun p => undoN n p.1 p.2.1

/-- Well-formedness of one command at the state where it executes: added or
modified-to values are not already present, deleted values carry their first
occurrence index, modify commands reference a present element whose stored
old value matches. -/
def WFcmd (s : LevelState) : EditCmd → Bool
  | .addWall w => decide (w ∉ s.walls)
  | .deleteWall w i => decide (firstIdx w s.walls = some i)
  | .modifyWall wall o n =>
      decide (o = wall) && decide (wall ∈ s.walls) && decide (n ∉ s.walls)
  | .addPlatform p => decide (p ∉ s.platforms)
  | .deletePlatform p i => decide (firstIdx p s.platforms = some i)
  | .modifyPlatform plat o n =>
      decide (o = plat) && decide (plat ∈ s.platforms) && decide (n ∉ s.platforms)
  | .modifyEmitter o _ => decide (o = s.emitter)

/-- Well-formedness of a command sequence along its own execution path. -/
def WFseq : List EditCmd → LevelState → Bool
  | [], _ => true
  | c :: cs, s =>
    WFcmd s c && (match execCmd c s with
                  | some p => WFseq cs p.1
                  | none => false)

/-- A well-formed command executes successfully and its undo restores the
state exactly. -/
lemma execCmd_undoCmd {s : LevelState} {c : EditCmd} (h : WFcmd s c = true) :
    ∃ s' c', execCmd c s = some (s', c') ∧ ∃ c'', undoCmd c' s' = some (s, c'') := by
  cases c with
  | addWall w =>
    have hw : w ∉ s.walls := of_decide_eq_true h
    exact ⟨_, _, rfl, .addWall w, by simp [undoCmd, pyRemove_append_self hw]⟩
  | deleteWall w i =>
    have hw : firstIdx w s.walls = some i := of_decide_eq_true h
    rcases pyRemove_pyInsert hw with ⟨l', hrem, hins⟩
    refine ⟨{ s with walls := l' }, .deleteWall w i, by simp [execCmd, hrem],
      .deleteWall w i, ?_⟩
    simp [undoCmd, hins]
  | modifyWall wall o n =>
    simp only [WFcmd, Bool.and_eq_true, decide_eq_true_eq] at h
    obtain ⟨⟨ho, hmem⟩, hn⟩ := h
    rcases firstIdx_of_mem hmem with ⟨i, hi⟩
    refine ⟨{ s with walls := s.walls.set i n }, .modifyWall n o n, by simp [execCmd, hi],
      .modifyWall o o n, ?_⟩
    have hfi : firstIdx n (s.walls.set i n) = some i := firstIdx_set hi hn
    simp [undoCmd, hfi, ho, set_set_firstIdx hi]
  | addPlatform p =>
    have hp : p ∉ s.platforms := of_decide_eq_true h
    exact ⟨_, _, rfl, .addPlatform p, by simp [undoCmd, pyRemove_append_self hp]⟩
  | deletePlatform p i =>
    have hp : firstIdx p s.platforms = some i := of_decide_eq_true h
    rcases pyRemove_pyInsert hp with ⟨l', hrem, hins⟩
    refine ⟨{ s with platforms := l' }, .deletePlatform p i, by simp [execCmd, hrem],
      .deletePlatform p i, ?_⟩
    simp [undoCmd, hins]
  | modifyPlatform plat o n =>
    simp only [WFcmd, Bool.and_eq_true, decide_eq_true_eq] at h
    obtain ⟨⟨ho, hmem⟩, hn⟩ := h
    rcases firstIdx_of_mem hmem with ⟨i, hi⟩
    refine ⟨{ s with platforms := s.platforms.set i n }, .modifyPlatform n o n,
      by simp [execCmd, hi], .modifyPlatform o o n, ?_⟩
    have hfi : firstIdx n (s.platforms.set i n) = some i := firstIdx_set hi hn
    simp [undoCmd, hfi, ho, set_set_firstIdx hi]
  | modifyEmitter o n =>
    have ho : o = s.emitter := of_decide_eq_true h
    exact ⟨_, _, rfl, .modifyEmitter o n, by simp [undoCmd, ho]⟩

/-- `undoN (n+1)` is `undoN n` followed by one more `CommandHistory.undo`. -/
lemma undoN_succ_right (n : ℕ) :
    ∀ (h : CommandHistory) (s : LevelState),
      undoN (n + 1) h s =
        (undoN n h s).bind fun p => (historyUndo p.1 p.2).map fun q => (q.1, q.2.1) := by
  induction n with
  | zero =>
    intro h s
    show (historyUndo h s).bind (fun p => undoN 0 p.1 p.2.1) =
      (historyUndo h s).map fun q => (q.1, q.2.1)
    cases historyUndo h s <;> rfl
  | succ m ih =>
    intro h s
    show (historyUndo h s).bind _ = ((historyUndo h s).bind _).bind _
    rw [Option.bind_assoc]
    cases historyUndo h s with
    | none => rfl
    | some p => exact ih p.1 p.2.1

/-- Round trip, strengthened with the exact shape of the final history. -/
lemma execSeq_undoN (cmds : List EditCmd) :
    ∀ (h : CommandHistory) (s : LevelState), WFseq cmds s = true →
      ∃ h₁ s₁, execSeq cmds h s = some (h₁, s₁) ∧
        ∃ rs, undoN cmds.length h₁ s₁ = some (⟨h.undoStack, rs⟩, s) := by
  induction cmds with
  | nil =>
    intro h s _
    exact ⟨h, s, rfl, h.redoStack, rfl⟩
  | cons c cs ih =>
    intro h s hwf
    simp only [WFseq, Bool.and_eq_true] at hwf
    obtain ⟨hc, hrest⟩ := hwf
    rcases execCmd_undoCmd hc with ⟨s', c', hexec, c'', hundo⟩
    rw [hexec] at hrest
    have hstep : historyExecute c h s = some (⟨h.undoStack ++ [c'], []⟩, s') := by
      simp [historyExecute, hexec]
    rcases ih ⟨h.undoStack ++ [c'], []⟩ s' hrest with ⟨h₁, s₁, hseq, rs, hund⟩
    refine ⟨h₁, s₁, by simp [execSeq, hstep, hseq], rs ++ [c''], ?_⟩
    have hlen : (c :: cs).length = cs.length + 1 := rfl
    rw [hlen, undoN_succ_right, hund]
    simp [historyUndo, hundo]

/-- C1 (amended).  A sequence of `N` commands executed through
`CommandHistory.execute` followed by `N` calls to `CommandHistory.undo`
restores the level model exactly, **provided** every command is well formed
where it executes (`WFseq`): added or modified-to values are not already
present in their list and delete indices are first-occurrence indices.
Without that proviso the first-match semantics of `list.remove`/`list.index`
can reorder the lists (see the counterexample). -/
theorem commandHistory_roundTrip (cmds : List EditCmd) (h : CommandHistory)
    (s : LevelState) (hwf : WFseq cmds s = true) :
    ∃ p, execSeq cmds h s = some p ∧ ∃ h₂, undoN cmds.length p.1 p.2 = some (h₂, s) := by
  rcases execSeq_undoN cmds h s hwf with ⟨h₁, s₁, hseq, rs, hund⟩
  exact ⟨(h₁, s₁), hseq, ⟨h.undoStack, rs⟩, hund⟩

/-- Witness for `commandHistory_roundTrip`: a five-command sequence using
all three element kinds on an initially empty level. -/
theorem commandHistory_roundTrip_witness :
    WFseq
      [.addWall ((0, 0), (0, 1)), .modifyWall ((0, 0), (0, 1)) ((0, 0), (0, 1)) ((2, 2), (3, 3)),
       .deleteWall ((2, 2), (3, 3)) 0, .addPlatform ⟨(5, 5), 50, 2⟩,
       .modifyEmitter get_default_emitter { get_default_emitter with pos := (100, 80) }]
      ⟨[], [], get_default_emitter⟩ = true ∧
    ∃ p, execSeq
      [.addWall ((0, 0), (0, 1)), .modifyWall ((0, 0), (0, 1)) ((0, 0), (0, 1)) ((2, 2), (3, 3)),
       .deleteWall ((2, 2), (3, 3)) 0, .addPlatform ⟨(5, 5), 50, 2⟩,
       .modifyEmitter get_default_emitter { get_default_emitter with pos := (100, 80) }]
      ⟨[], []⟩ ⟨[], [], get_default_emitter⟩ = some p ∧
      ∃ h₂, undoN 5 p.1 p.2 = some (h₂, ⟨[], [], get_default_emitter⟩) :=
  ⟨by decide, commandHistory_roundTrip _ ⟨[], []⟩ _ (by decide)⟩

/-- C1 (counterexample).  Executing a single `AddWallCommand` whose wall
value duplicates an existing wall and then undoing does *not* restore the
wall list: `list.remove` deletes the first equal wall, reordering
`[w, b]` into `[b, w]`. -/
theorem commandHistory_roundTrip_counterexample :
    ((execSeq [.addWall ((0, 0), (0, 1))] ⟨[], []⟩
        ⟨[((0, 0), (0, 1)), ((2, 0), (3, 0))], [], get_default_emitter⟩).bind
      fun p => (undoN 1 p.1 p.2).map fun q => q.2) =
    some ⟨[((2, 0), (3, 0)), ((0, 0), (0, 1))], [], get_default_emitter⟩ ∧
    (⟨[((2, 0), (3, 0)), ((0, 0), (0, 1))], [], get_default_emitter⟩ : LevelState) ≠
      ⟨[((0, 0), (0, 1)), ((2, 0), (3, 0))], [], get_default_emitter⟩ := by
  constructor
  · decide
  · decide

/-- C8.  `CommandHistory.undo` and `redo` on an empty stack return `false`
and change nothing; `CommandHistory.execute` clears the redo stack, so after
any `K` undos followed by a successful execute, a redo fails. -/
theorem commandHistory_emptyFail_and_executeClearsRedo
    (s s₁ s₂ : LevelState) (us rs : List EditCmd) (K : ℕ)
    (h h₁ h₂ : CommandHistory) (c : EditCmd) :
    historyUndo ⟨[], rs⟩ s = some (⟨[], rs⟩, s, false) ∧
    historyRedo ⟨us, []⟩ s = some (⟨us, []⟩, s, false) ∧
    (undoN K h s = some (h₁, s₁) → historyExecute c h₁ s₁ = some (h₂, s₂) →
      historyRedo h₂ s₂ = some (h₂, s₂, false)) := by
  refine ⟨rfl, rfl, fun _ hex => ?_⟩
  simp only [historyExecute] at hex
  rcases Option.map_eq_some'.1 hex with ⟨p, _, hp⟩
  obtain ⟨hh, hs⟩ := Prod.mk.inj hp
  subst hh
  subst hs
  rfl

/-- Witness for `commandHistory_emptyFail_and_executeClearsRedo`: a concrete
undo-then-execute run after which redo fails. -/
theorem commandHistory_emptyFail_witness :
    historyRedo ⟨[.addWall ((0, 0), (0, 1))], []⟩ ⟨[((0, 0), (0, 1))], [], get_default_emitter⟩ =
      some (⟨[.addWall ((0, 0), (0, 1))], []⟩,
            ⟨[((0, 0), (0, 1))], [], get_default_emitter⟩, false) :=
  (commandHistory_emptyFail_and_executeClearsRedo
      ⟨[], [], get_default_emitter⟩ ⟨[], [], get_default_emitter⟩
      ⟨[((0, 0), (0, 1))], [], get_default_emitter⟩ [] [] 0
      ⟨[], []⟩ ⟨[], []⟩ ⟨[.addWall ((0, 0), (0, 1))], []⟩
      (.addWall ((0, 0), (0, 1)))).2.2 (by decide) (by decide)

/-! ## Geometry lookups (`LevelEditor.find_wall_at` / `find_platform_at`)

`distance_to_segment` returns `math.hypot(...)`, a square root that ℚ cannot
represent; since the lookups only *compare* distances and squaring is
monotone on nonnegatives, distances are represented throughout by their
squares: each comparison `x < y` of the Python code becomes `x² < y²`, the
initial best `threshold + 1` becomes `(threshold + 1)²`, and the final test
`best <= threshold` becomes `best² ≤ threshold²`. -/

/-- Squared distance from point `p` to segment `a`–`b`
(`LevelEditor.distance_to_segment`, squared): project, clamp `t` to `[0,1]`,
measure to the closest point; degenerate segments fall back to the point
distance. -/
def distToSegmentSq (p a b : Point) : ℚ :=
  let abx := b.1 - a.1
  let aby := b.2 - a.2
  let lsq := abx * abx + aby * aby
  if lsq = 0 then (p.1 - a.1) * (p.1 - a.1) + (p.2 - a.2) * (p.2 - a.2)
  else
    let t := max 0 (min 1 (((p.1 - a.1) * abx + (p.2 - a.2) * aby) / lsq))
    (p.1 - (a.1 + t * abx)) * (p.1 - (a.1 + t * abx)) +
      (p.2 - (a.2 + t * aby)) * (p.2 - (a.2 + t * aby))

/-- The best-candidate scan shared by `find_wall_at` and `find_platform_at`:
keep the first strictly-smaller distance seen so far. -/
def findBestAux (i : ℕ) (ds : List ℚ) (bestIdx : Option ℕ) (bestDist : ℚ) :
    Option ℕ × ℚ :=
  match ds with
  | [] => (bestIdx, bestDist)
  | d :: rest =>
    if d < bestDist then findBestAux (i + 1) rest (some i) d
    else findBestAux (i + 1) rest bestIdx bestDist

/-- The scan over a list of (squared) distances with initial best
`(threshold+1)²` and final test `≤ threshold²`. -/
def findNearest (ds : List ℚ) (threshold : ℚ) : Option ℕ :=
  let r := findBestAux 0 ds none ((threshold + 1) * (threshold + 1))
  if r.2 ≤ threshold * threshold then r.1 else none

/-- `LevelEditor.find_wall_at` (distances squared). -/
def find_wall_at (walls : List Wall) (pos : Point) (threshold : ℚ) : Option ℕ :=
  findNearest (walls.map fun w => distToSegmentSq pos w.1 w.2) threshold

/-- `LevelEditor.find_platform_at`: each platform spans
`(cx - length, cy)`–`(cx + length, cy)` (distances squared). -/
def find_platform_at (platforms : List Platform) (pos : Point) (threshold : ℚ) :
    Option ℕ :=
  findNearest
    (platforms.map fun pl =>
      distToSegmentSq pos (pl.pos.1 - pl.length, pl.pos.2) (pl.pos.1 + pl.length, pl.pos.2))
    threshold

/-- What the scan computes: either nothing beat the initial best, or the
result is the first index attaining the minimum of the list. -/
lemma findBestAux_spec (ds : List ℚ) :
    ∀ (i : ℕ) (bi : Option ℕ) (bd : ℚ),
      ((findBestAux i ds bi bd).2 = bd ∧ (findBestAux i ds bi bd).1 = bi ∧
        ∀ d ∈ ds, bd ≤ d) ∨
      ((findBestAux i ds bi bd).2 < bd ∧
        ∃ j, ∃ hj : j < ds.length,
          (findBestAux i ds bi bd).1 = some (i + j) ∧
          ds.get ⟨j, hj⟩ = (findBestAux i ds bi bd).2 ∧
          (∀ d ∈ ds, (findBestAux i ds bi bd).2 ≤ d) ∧
          ∀ m (hm : m < j), (findBestAux i ds bi bd).2 < ds.get ⟨m, hm.trans hj⟩) := by
  induction ds with
  | nil => intro i bi bd; exact Or.inl ⟨rfl, rfl, by simp⟩
  | cons d rest ih =>
    intro i bi bd
    by_cases hd : d < bd
    · rw [show findBestAux i (d :: rest) bi bd = findBestAux (i + 1) rest (some i) d from by
        simp [findBestAux, hd]]
      rcases ih (i + 1) (some i) d with ⟨h2, h1, hall⟩ | ⟨h2, j, hj, h1, hget, hall, hfirst⟩
      · refine Or.inr ⟨by rw [h2]; exact hd, 0, by simp, by simpa using h1, by simpa using h2.symm,
          ?_, fun m hm => absurd hm (Nat.not_lt_zero m)⟩
        intro x hx
        rcases List.mem_cons.1 hx with rfl | hx
        · rw [h2]
        · rw [h2]; exact hall x hx
      · refine Or.inr ⟨h2.trans hd, j + 1, Nat.succ_lt_succ hj, by rw [h1]; ring_nf, by simpa using hget,
          ?_, ?_⟩
        · intro x hx
          rcases List.mem_cons.1 hx with rfl | hx
          · exact le_of_lt h2
          · exact hall x hx
        · intro m hm
          cases m with
          | zero => simpa using h2
          | succ m' => exact hfirst m' (Nat.lt_of_succ_lt_succ hm)
    · rw [show findBestAux i (d :: rest) bi bd = findBestAux (i + 1) rest bi bd from by
        simp [findBestAux, hd]]
      rcases ih (i + 1) bi bd with ⟨h2, h1, hall⟩ | ⟨h2, j, hj, h1, hget, hall, hfirst⟩
      · refine Or.inl ⟨h2, h1, ?_⟩
        intro x hx
        rcases List.mem_cons.1 hx with rfl | hx
        · exact le_of_not_lt hd
        · exact hall x hx
      · refine Or.inr ⟨h2, j + 1, Nat.succ_lt_succ hj, by rw [h1]; ring_nf, by simpa using hget,
          ?_, ?_⟩
        · intro x hx
          rcases List.mem_cons.1 hx with rfl | hx
          · exact le_of_lt (lt_of_lt_of_le h2 (le_of_not_lt hd))
          · exact hall x hx
        · intro m hm
          cases m with
          | zero => simpa using lt_of_lt_of_le h2 (le_of_not_lt hd)
          | succ m' => exact hfirst m' (Nat.lt_of_succ_lt_succ hm)

/-- Characterization of `findNearest` for a nonnegative threshold: `none`
exactly when every distance exceeds `threshold²`, otherwise the first index
attaining the minimum. -/
lemma findNearest_spec (ds : List ℚ) (t : ℚ) (ht : 0 ≤ t) :
    (findNearest ds t = none ↔ ∀ d ∈ ds, t * t < d) ∧
    (∀ i, findNearest ds t = some i →
      ∃ hi : i < ds.length,
        ds.get ⟨i, hi⟩ ≤ t * t ∧ (∀ d ∈ ds, ds.get ⟨i, hi⟩ ≤ d) ∧
        ∀ m (hm : m < i), ds.get ⟨i, hi⟩ < ds.get ⟨m, hm.trans hi⟩) := by
  have htt : t * t < (t + 1) * (t + 1) := by nlinarith
  have hdef : findNearest ds t =
      if (findBestAux 0 ds none ((t + 1) * (t + 1))).2 ≤ t * t then
        (findBestAux 0 ds none ((t + 1) * (t + 1))).1
      else none := rfl
  rcases findBestAux_spec ds 0 none ((t + 1) * (t + 1)) with
    ⟨h2, h1, hall⟩ | ⟨h2, j, hj, h1, hget, hall, hfirst⟩
  · have hcond : ¬(findBestAux 0 ds none ((t + 1) * (t + 1))).2 ≤ t * t := by
      rw [h2]; exact not_le.2 htt
    have hnone : findNearest ds t = none := by rw [hdef, if_neg hcond]
    constructor
    · constructor
      · intro _ d hd
        exact lt_of_lt_of_le htt (hall d hd)
      · intro _
        exact hnone
    · intro i hi
      rw [hnone] at hi
      exact absurd hi (by simp)
  · constructor
    · constructor
      · intro hn d hd
        by_cases hc : (findBestAux 0 ds none ((t + 1) * (t + 1))).2 ≤ t * t
        · rw [hdef, if_pos hc, h1] at hn
          exact absurd hn (by simp)
        · exact (lt_of_not_le hc).trans_le (hall d hd)
      · intro hstrong
        have hlt : t * t < (findBestAux 0 ds none ((t + 1) * (t + 1))).2 := by
          rw [← hget]
          exact hstrong _ (List.get_mem ds j hj)
        rw [hdef, if_neg (not_le.2 hlt)]
    · intro i hi
      by_cases hc : (findBestAux 0 ds none ((t + 1) * (t + 1))).2 ≤ t * t
      · rw [hdef, if_pos hc, h1] at hi
        have hij : i = j := by
          have := Option.some.inj hi
          omega
        subst hij
        refine ⟨hj, by rw [hget]; exact hc, by rw [hget]; exact hall, ?_⟩
        intro m hm
        rw [hget]
        exact hfirst m hm
      · rw [hdef, if_neg hc] at hi
        exact absurd hi (by simp)

/-- `findNearest_spec` transported along a distance function on a list. -/
lemma findNearest_map_spec {α : Type} (l : List α) (f : α → ℚ) (t : ℚ) (ht : 0 ≤ t) :
    (findNearest (l.map f) t = none ↔ ∀ x ∈ l, t * t < f x) ∧
    (∀ i, findNearest (l.map f) t = some i →
      ∃ hi : i < l.length, f (l.get ⟨i, hi⟩) ≤ t * t ∧
        (∀ x ∈ l, f (l.get ⟨i, hi⟩) ≤ f x) ∧
        ∀ m (hm : m < i), f (l.get ⟨i, hi⟩) < f (l.get ⟨m, hm.trans hi⟩)) := by
  obtain ⟨hn, hs⟩ := findNearest_spec (l.map f) t ht
  constructor
  · rw [hn]
    constructor
    · intro h x hx
      exact h (f x) (List.mem_map_of_mem f hx)
    · intro h d hd
      rcases List.mem_map.1 hd with ⟨x, hx, rfl⟩
      exact h x hx
  · intro i hi
    rcases hs i hi with ⟨hlen, hle, hmin, hfirst⟩
    have hlen' : i < l.length := by simpa using hlen
    have hgi : (l.map f).get ⟨i, hlen⟩ = f (l.get ⟨i, hlen'⟩) := by
      simp [List.get_map]
    refine ⟨hlen', hgi ▸ hle, ?_, ?_⟩
    · intro x hx
      have := hmin (f x) (List.mem_map_of_mem f hx)
      exact hgi ▸ this
    · intro m hm
      have hm2 : m < (l.map f).length := hm.trans hlen
      have hgm : (l.map f).get ⟨m, hm2⟩ = f (l.get ⟨m, hm.trans hlen'⟩) := by
        simp [List.get_map]
      have := hfirst m hm
      rw [hgi, hgm] at this
      exact this

/-- C6 (amended).  For a nonnegative threshold, `find_wall_at` and
`find_platform_at` return `none` exactly when every element's distance
exceeds the threshold (measured by squared distances), and otherwise the
first index attaining the minimal distance, with the threshold test being
**inclusive** (`<= threshold`, not strictly inside): ties between
equidistant closest elements go to the first in insertion order. -/
theorem find_at_inclusive_threshold (walls : List Wall) (platforms : List Platform)
    (pos : Point) (t : ℚ) (ht : 0 ≤ t) :
    ((find_wall_at walls pos t = none ↔
        ∀ w ∈ walls, t * t < distToSegmentSq pos w.1 w.2) ∧
      (∀ i, find_wall_at walls pos t = some i →
        ∃ hi : i < walls.length,
          distToSegmentSq pos (walls.get ⟨i, hi⟩).1 (walls.get ⟨i, hi⟩).2 ≤ t * t ∧
          (∀ w ∈ walls,
            distToSegmentSq pos (walls.get ⟨i, hi⟩).1 (walls.get ⟨i, hi⟩).2 ≤
              distToSegmentSq pos w.1 w.2) ∧
          ∀ m (hm : m < i),
            distToSegmentSq pos (walls.get ⟨i, hi⟩).1 (walls.get ⟨i, hi⟩).2 <
              distToSegmentSq pos (walls.get ⟨m, hm.trans hi⟩).1
                (walls.get ⟨m, hm.trans hi⟩).2)) ∧
    ((find_platform_at platforms pos t = none ↔
        ∀ pl ∈ platforms, t * t <
          distToSegmentSq pos (pl.pos.1 - pl.length, pl.pos.2)
            (pl.pos.1 + pl.length, pl.pos.2)) ∧
      (∀ i, find_platform_at platforms pos t = some i →
        ∃ hi : i < platforms.length,
          distToSegmentSq pos
              ((platforms.get ⟨i, hi⟩).pos.1 - (platforms.get ⟨i, hi⟩).length,
               (platforms.get ⟨i, hi⟩).pos.2)
              ((platforms.get ⟨i, hi⟩).pos.1 + (platforms.get ⟨i, hi⟩).length,
               (platforms.get ⟨i, hi⟩).pos.2) ≤ t * t ∧
          (∀ pl ∈ platforms,
            distToSegmentSq pos
                ((platforms.get ⟨i, hi⟩).pos.1 - (platforms.get ⟨i, hi⟩).length,
                 (platforms.get ⟨i, hi⟩).pos.2)
                ((platforms.get ⟨i, hi⟩).pos.1 + (platforms.get ⟨i, hi⟩).length,
                 (platforms.get ⟨i, hi⟩).pos.2) ≤
              distToSegmentSq pos (pl.pos.1 - pl.length, pl.pos.2)
                (pl.pos.1 + pl.length, pl.pos.2)) ∧
          ∀ m (hm : m < i),
            distToSegmentSq pos
                ((platforms.get ⟨i, hi⟩).pos.1 - (platforms.get ⟨i, hi⟩).length,
                 (platforms.get ⟨i, hi⟩).pos.2)
                ((platforms.get ⟨i, hi⟩).pos.1 + (platforms.get ⟨i, hi⟩).length,
                 (platforms.get ⟨i, hi⟩).pos.2) <
              distToSegmentSq pos
                ((platforms.get ⟨m, hm.trans hi⟩).pos.1 -
                  (platforms.get ⟨m, hm.trans hi⟩).length,
                 (platforms.get ⟨m, hm.trans hi⟩).pos.2)
                ((platforms.get ⟨m, hm.trans hi⟩).pos.1 +
                  (platforms.get ⟨m, hm.trans hi⟩).length,
                 (platforms.get ⟨m, hm.trans hi⟩).pos.2))) := by
  constructor
  · obtain ⟨hn, hs⟩ :=
      findNearest_map_spec walls (fun w => distToSegmentSq pos w.1 w.2) t ht
    exact ⟨hn, fun i hi => by
      rcases hs i hi with ⟨hlen, hle, hmin, hfirst⟩
      exact ⟨hlen, hle, hmin, hfirst⟩⟩
  · obtain ⟨hn, hs⟩ :=
      findNearest_map_spec platforms
        (fun pl => distToSegmentSq pos (pl.pos.1 - pl.length, pl.pos.2)
          (pl.pos.1 + pl.length, pl.pos.2)) t ht
    exact ⟨hn, fun i hi => by
      rcases hs i hi with ⟨hlen, hle, hmin, hfirst⟩
      exact ⟨hlen, hle, hmin, hfirst⟩⟩

/-- Witness for `find_at_inclusive_threshold` at a concrete level. -/
theorem find_at_inclusive_threshold_witness :
    (0 : ℚ) ≤ 10 ∧
    (find_wall_at [((-1, 0), (1, 0))] (0, 10) 10 = none ↔
      ∀ w ∈ [(((-1 : ℚ), (0 : ℚ)), ((1 : ℚ), (0 : ℚ)))],
        (10 : ℚ) * 10 < distToSegmentSq (0, 10) w.1 w.2) := by
  refine ⟨by norm_num, ?_⟩
  exact (find_at_inclusive_threshold [((-1, 0), (1, 0))] [] (0, 10) 10 (by norm_num)).1.1

/-- C6 (counterexample).  A wall at distance *exactly* the threshold is
returned: the point `(0, 10)` is at distance `10` from the wall
`(-1,0)`–`(1,0)` and `find_wall_at` with threshold `10` returns it, where the
claim's "strictly inside the threshold" requires `none`. -/
theorem find_wall_at_counterexample :
    distToSegmentSq (0, 10) (-1, 0) (1, 0) = 10 * 10 ∧
    find_wall_at [((-1, 0), (1, 0))] (0, 10) 10 = some 0 := by
  constructor
  · norm_num [distToSegmentSq]
  · norm_num [find_wall_at, findNearest, findBestAux, distToSegmentSq]

/-! ## Level files (`level_io.py`)

`load_level` receives the result of `json.loads`, modelled as a `Json`
value; a raised Python exception is `Except.error`.  Python's `float()`
also accepts numeric strings; that coercion is not modelled and no theorem
below depends on it.  Error *messages* are not modelled beyond a tag, and
within one wall/point the order in which sub-errors are detected may differ
from Python, but success and failure coincide. -/

/-- A parsed JSON document. -/
inductive Json where
  | null
  | boolean (b : Bool)
  | num (q : ℚ)
  | str (s : String)
  | arr (elems : List Json)
  | obj (fields : List (String × Json))

/-- First binding of a key in an object's field list. -/
def jLookup (kvs : List (String × Json)) (key : String) : Option Json :=
  match kvs with
  | [] => none
  | (k, v) :: rest => if k = key then some v else jLookup rest key

/-- Python `data.get(key, default)`: requires a dict, never fails on one. -/
def jGet (j : Json) (key : String) (dflt : Json) : Except String Json :=
  match j with
  | .obj kvs => .ok ((jLookup kvs key).getD dflt)
  | _ => .error "AttributeError"

/-- Python subscript `j[i]` for the sequence positions used by `load_level`. -/
def jIndex (j : Json) (i : ℕ) : Except String Json :=
  match j with
  | .arr xs =>
    match xs.get? i with
    | some v => .ok v
    | none => .error "IndexError"
  | _ => .error "TypeError"

/-- Python `float(x)` on a JSON value (numeric strings not modelled). -/
def pyFloat : Json → Except String ℚ
  | .num q => .ok q
  | .boolean b => .ok (if b then 1 else 0)
  | _ => .error "ValueError"

/-- Python `int(x)` (truncation toward zero) on a JSON value. -/
def pyInt : Json → Except String ℤ
  | .num q => .ok (Int.tdiv q.num q.den)
  | .boolean b => .ok (if b then 1 else 0)
  | _ => .error "ValueError"

/-- Python truthiness, for `if emitter_data:`. -/
def jTruthy : Json → Bool
  | .null => false
  | .boolean b => b
  | .num q => decide (q ≠ 0)
  | .str s => decide (s ≠ "")
  | .arr xs => !xs.isEmpty
  | .obj kvs => !kvs.isEmpty

/-- Python iteration over the level file's collection fields (a list). -/
def jAsList : Json → Except String (List Json)
  | .arr xs => .ok xs
  | _ => .error "TypeError"

/-- `(float(p[0]), float(p[1]))`. -/
def loadPoint (j : Json) : Except String Point :=
  (jIndex j 0).bind fun x =>
  (jIndex j 1).bind fun y =>
  (pyFloat x).bind fun xv =>
  (pyFloat y).map fun yv => (xv, yv)

/-- One wall entry: `start`/`end` defaulting to `[0, 0]`. -/
def loadWall (j : Json) : Except String Wall :=
  (jGet j "start" (.arr [.num 0, .num 0])).bind fun s =>
  (jGet j "end" (.arr [.num 0, .num 0])).bind fun e =>
  (loadPoint s).bind fun sp =>
  (loadPoint e).map fun ep => (sp, ep)

/-- One platform entry: `pos` default `[0, 0]`, `length` default `40`,
`angular_velocity` default `0.0`. -/
def loadPlatform (j : Json) : Except String Platform :=
  (jGet j "pos" (.arr [.num 0, .num 0])).bind fun posJ =>
  (loadPoint posJ).bind fun pos =>
  (jGet j "length" (.num 40)).bind fun lenJ =>
  (pyFloat lenJ).bind fun len =>
  (jGet j "angular_velocity" (.num 0)).bind fun avJ =>
  (pyFloat avJ).map fun av => ⟨pos, len, av⟩

/-- The emitter entry with its documented defaults. -/
def loadEmitter (j : Json) : Except String Emitter :=
  (jGet j "pos" (.arr [.num 400, .num 80])).bind fun posJ =>
  (loadPoint posJ).bind fun pos =>
  (jGet j "angle" (.num 90)).bind fun angleJ =>
  (pyFloat angleJ).bind fun angle =>
  (jGet j "width" (.num 60)).bind fun widthJ =>
  (pyFloat widthJ).bind fun width =>
  (jGet j "rate" (.num 20)).bind fun rateJ =>
  (pyFloat rateJ).bind fun rate =>
  (jGet j "count" (.num 100)).bind fun countJ =>
  (pyInt countJ).bind fun count =>
  (jGet j "speed" (.num 50)).bind fun speedJ =>
  (pyFloat speedJ).map fun speed => ⟨pos, angle, width, rate, count, speed⟩

/-- One conveyor entry: `start`/`end` default `[0, 0]`, `speed` default `100.0`. -/
def loadConveyor (j : Json) : Except String Conveyor :=
  (jGet j "start" (.arr [.num 0, .num 0])).bind fun s =>
  (jGet j "end" (.arr [.num 0, .num 0])).bind fun e =>
  (loadPoint s).bind fun sp =>
  (loadPoint e).bind fun ep =>
  (jGet j "speed" (.num 100)).bind fun spdJ =>
  (pyFloat spdJ).map fun spd => ⟨sp, ep, spd⟩

/-- The level dict produced by `load_level`; `name` is stored raw
(`data.get("name", "level")` performs no conversion). -/
structure LoadedLevel where
  name : Json
  walls : List Wall
  platforms : List Platform
  emitter : Emitter
  conveyors : List Conveyor

/-- `level_io.load_level` over a parsed document. -/
def load_level (doc : Json) : Except String LoadedLevel :=
  (jGet doc "walls" (.arr [])).bind fun wallsJ =>
  (jAsList wallsJ).bind fun wallsL =>
  (wallsL.mapM loadWall).bind fun walls =>
  (jGet doc "platforms" (.arr [])).bind fun platsJ =>
  (jAsList platsJ).bind fun platsL =>
  (platsL.mapM loadPlatform).bind fun platforms =>
  (jGet doc "emitter" .null).bind fun emitterJ =>
  (if jTruthy emitterJ then loadEmitter emitterJ else .ok get_default_emitter).bind
    fun emitter =>
  (jGet doc "conveyors" (.arr [])).bind fun convJ =>
  (jAsList convJ).bind fun convL =>
  (convL.mapM loadConveyor).bind fun conveyors =>
  (jGet doc "name" (.str "level")).map fun name =>
  ⟨name, walls, platforms, emitter, conveyors⟩

/-! ### Well-typedness of a document's *present* fields -/

/-- A value `float()` accepts (numeric strings not modelled). -/
def numOK : Json → Bool
  | .num _ => true
  | .boolean _ => true
  | _ => false

/-- A value usable as a 2-point `[x, y, ...]`. -/
def pointOK : Json → Bool
  | .arr (x :: y :: _) => numOK x && numOK y
  | _ => false

/-- A field is well typed when absent or accepted by `ok`. -/
def objFieldOK (kvs : List (String × Json)) (key : String) (ok : Json → Bool) : Bool :=
  match jLookup kvs key with
  | some v => ok v
  | none => true

def wallOK : Json → Bool
  | .obj kvs => objFieldOK kvs "start" pointOK && objFieldOK kvs "end" pointOK
  | _ => false

def platformOK : Json → Bool
  | .obj kvs =>
      objFieldOK kvs "pos" pointOK && objFieldOK kvs "length" numOK &&
        objFieldOK kvs "angular_velocity" numOK
  | _ => false

def conveyorOK : Json → Bool
  | .obj kvs =>
      objFieldOK kvs "start" pointOK && objFieldOK kvs "end" pointOK &&
        objFieldOK kvs "speed" numOK
  | _ => false

def emitterOK : Json → Bool
  | .obj kvs =>
      objFieldOK kvs "pos" pointOK && objFieldOK kvs "angle" numOK &&
        objFieldOK kvs "width" numOK && objFieldOK kvs "rate" numOK &&
        objFieldOK kvs "count" numOK && objFieldOK kvs "speed" numOK
  | _ => false

/-- A collection field is well typed when absent or a list of well-typed
entries. -/
def listFieldOK (kvs : List (String × Json)) (key : String) (ok : Json → Bool) : Bool :=
  match jLookup kvs key with
  | some (.arr xs) => xs.all ok
  | some _ => false
  | none => true

/-- A document whose present fields are all well typed. -/
def docWellTyped : Json → Bool
  | .obj kvs =>
      listFieldOK kvs "walls" wallOK && listFieldOK kvs "platforms" platformOK &&
      listFieldOK kvs "conveyors" conveyorOK &&
      (match jLookup kvs "emitter" with
       | some e => !jTruthy e || emitterOK e
       | none => true)
  | _ => false

@[simp] lemma ok_bind {ε α β : Type} (a : α) (f : α → Except ε β) :
    (Except.ok a : Except ε α).bind f = f a := rfl

@[simp] lemma error_bind {ε α β : Type} (e : ε) (f : α → Except ε β) :
    (Except.error e : Except ε α).bind f = .error e := rfl

@[simp] lemma ok_map {ε α β : Type} (a : α) (f : α → β) :
    Except.map f (Except.ok a : Except ε α) = .ok (f a) := rfl

lemma pyFloat_ok {j : Json} (h : numOK j = true) : ∃ q, pyFloat j = .ok q := by
  cases j with
  | num q => exact ⟨q, rfl⟩
  | boolean b => exact ⟨if b then 1 else 0, rfl⟩
  | null => simp [numOK] at h
  | str s => simp [numOK] at h
  | arr xs => simp [numOK] at h
  | obj kvs => simp [numOK] at h

lemma pyInt_ok {j : Json} (h : numOK j = true) : ∃ z, pyInt j = .ok z := by
  cases j with
  | num q => exact ⟨Int.tdiv q.num q.den, rfl⟩
  | boolean b => exact ⟨if b then 1 else 0, rfl⟩
  | null => simp [numOK] at h
  | str s => simp [numOK] at h
  | arr xs => simp [numOK] at h
  | obj kvs => simp [numOK] at h

lemma loadPoint_ok {j : Json} (h : pointOK j = true) : ∃ p, loadPoint j = .ok p := by
  cases j with
  | arr xs =>
    match xs, h with
    | x :: y :: r, h =>
      simp only [pointOK, Bool.and_eq_true] at h
      rcases pyFloat_ok h.1 with ⟨xv, hx⟩
      rcases pyFloat_ok h.2 with ⟨yv, hy⟩
      exact ⟨(xv, yv), by simp [loadPoint, jIndex, hx, hy]⟩
  | null => simp [pointOK] at h
  | boolean b => simp [pointOK] at h
  | num q => simp [pointOK] at h
  | str s => simp [pointOK] at h
  | obj kvs => simp [pointOK] at h

lemma objFieldOK_getD (dflt : Json) {kvs : List (String × Json)} {key : String}
    {ok : Json → Bool} (h : objFieldOK kvs key ok = true) (hd : ok dflt = true) :
    ok ((jLookup kvs key).getD dflt) = true := by
  unfold objFieldOK at h
  cases hl : jLookup kvs key with
  | none => simpa using hd
  | some v => rw [hl] at h; simpa using h

lemma loadWall_ok {j : Json} (h : wallOK j = true) : ∃ w, loadWall j = .ok w := by
  cases j with
  | obj kvs =>
    simp only [wallOK, Bool.and_eq_true] at h
    rcases loadPoint_ok (objFieldOK_getD (.arr [.num 0, .num 0]) h.1 (by rfl)) with ⟨sp, hsp⟩
    rcases loadPoint_ok (objFieldOK_getD (.arr [.num 0, .num 0]) h.2 (by rfl)) with ⟨ep, hep⟩
    exact ⟨(sp, ep), by simp [loadWall, jGet, hsp, hep]⟩
  | null => simp [wallOK] at h
  | boolean b => simp [wallOK] at h
  | num q => simp [wallOK] at h
  | str s => simp [wallOK] at h
  | arr xs => simp [wallOK] at h

lemma loadPlatform_ok {j : Json} (h : platformOK j = true) : ∃ p, loadPlatform j = .ok p := by
  cases j with
  | obj kvs =>
    simp only [platformOK, Bool.and_eq_true] at h
    rcases loadPoint_ok (objFieldOK_getD (.arr [.num 0, .num 0]) h.1.1 (by rfl)) with ⟨pos, hpos⟩
    rcases pyFloat_ok (objFieldOK_getD (.num 40) h.1.2 (by rfl)) with ⟨len, hlen⟩
    rcases pyFloat_ok (objFieldOK_getD (.num 0) h.2 (by rfl)) with ⟨av, hav⟩
    exact ⟨⟨pos, len, av⟩, by simp [loadPlatform, jGet, hpos, hlen, hav]⟩
  | null => simp [platformOK] at h
  | boolean b => simp [platformOK] at h
  | num q => simp [platformOK] at h
  | str s => simp [platformOK] at h
  | arr xs => simp [platformOK] at h

lemma loadConveyor_ok {j : Json} (h : conveyorOK j = true) : ∃ c, loadConveyor j = .ok c := by
  cases j with
  | obj kvs =>
    simp only [conveyorOK, Bool.and_eq_true] at h
    rcases loadPoint_ok (objFieldOK_getD (.arr [.num 0, .num 0]) h.1.1 (by rfl)) with ⟨sp, hsp⟩
    rcases loadPoint_ok (objFieldOK_getD (.arr [.num 0, .num 0]) h.1.2 (by rfl)) with ⟨ep, hep⟩
    rcases pyFloat_ok (objFieldOK_getD (.num 100) h.2 (by rfl)) with ⟨spd, hspd⟩
    exact ⟨⟨sp, ep, spd⟩, by simp [loadConveyor, jGet, hsp, hep, hspd]⟩
  | null => simp [conveyorOK] at h
  | boolean b => simp [conveyorOK] at h
  | num q => simp [conveyorOK] at h
  | str s => simp [conveyorOK] at h
  | arr xs => simp [conveyorOK] at h

lemma loadEmitter_ok {j : Json} (h : emitterOK j = true) : ∃ e, loadEmitter j = .ok e := by
  cases j with
  | obj kvs =>
    simp only [emitterOK, Bool.and_eq_true] at h
    obtain ⟨⟨⟨⟨⟨hpos, hang⟩, hwid⟩, hrate⟩, hcount⟩, hspeed⟩ := h
    rcases loadPoint_ok (objFieldOK_getD (.arr [.num 400, .num 80]) hpos (by rfl)) with ⟨pos, h1⟩
    rcases pyFloat_ok (objFieldOK_getD (.num 90) hang (by rfl)) with ⟨angle, h2⟩
    rcases pyFloat_ok (objFieldOK_getD (.num 60) hwid (by rfl)) with ⟨width, h3⟩
    rcases pyFloat_ok (objFieldOK_getD (.num 20) hrate (by rfl)) with ⟨rate, h4⟩
    rcases pyInt_ok (objFieldOK_getD (.num 100) hcount (by rfl)) with ⟨count, h5⟩
    rcases pyFloat_ok (objFieldOK_getD (.num 50) hspeed (by rfl)) with ⟨speed, h6⟩
    exact ⟨⟨pos, angle, width, rate, count, speed⟩,
      by simp [loadEmitter, jGet, h1, h2, h3, h4, h5, h6]⟩
  | null => simp [emitterOK] at h
  | boolean b => simp [emitterOK] at h
  | num q => simp [emitterOK] at h
  | str s => simp [emitterOK] at h
  | arr xs => simp [emitterOK] at h

lemma mapM_ok {β : Type} (l : List Json) (f : Json → Except String β)
    (h : ∀ x ∈ l, ∃ y, f x = .ok y) : ∃ ys, l.mapM f = .ok ys := by
  induction l with
  | nil => exact ⟨[], rfl⟩
  | cons x t ih =>
    rcases h x (List.mem_cons_self x t) with ⟨y, hy⟩
    rcases ih (fun z hz => h z (List.mem_cons_of_mem x hz)) with ⟨ys, hys⟩
    refine ⟨y :: ys, ?_⟩
    rw [List.mapM_cons, hy, hys]
    rfl

lemma listFieldOK_load {β : Type} (kvs : List (String × Json)) (key : String)
    (ok : Json → Bool) (loadF : Json → Except String β)
    (hok : ∀ j, ok j = true → ∃ v, loadF j = .ok v)
    (h : listFieldOK kvs key ok = true) :
    ∃ xs vs, (jLookup kvs key).getD (.arr []) = .arr xs ∧ xs.mapM loadF = .ok vs := by
  unfold listFieldOK at h
  cases hl : jLookup kvs key with
  | none => exact ⟨[], [], by simp [hl], rfl⟩
  | some v =>
    rw [hl] at h
    cases v with
    | arr xs =>
      have hall : ∀ x ∈ xs, ok x = true := by simpa [List.all_eq_true] using h
      rcases mapM_ok xs loadF (fun x hx => hok x (hall x hx)) with ⟨vs, hvs⟩
      exact ⟨xs, vs, by simp [hl], hvs⟩
    | null => simp at h
    | boolean b => simp at h
    | num q => simp at h
    | str s => simp at h
    | obj kvs2 => simp at h

/-- C7 (amended).  For a document whose *present* fields are well typed,
`load_level` succeeds, substituting the documented defaults for missing
fields; in particular a document with no `emitter` entry yields the default
emitter (pos `(400, 80)`, angle `90`, width `60`, rate `20`, count `100`,
speed `50`).  (For ill-typed documents it *can* raise - see the
counterexample - so the original "never raises" is too strong.) -/
theorem load_level_wellTyped (kvs : List (String × Json))
    (h : docWellTyped (.obj kvs) = true) :
    ∃ lvl, load_level (.obj kvs) = .ok lvl ∧
      (jLookup kvs "emitter" = none → lvl.emitter = get_default_emitter) := by
  have h' : (listFieldOK kvs "walls" wallOK && listFieldOK kvs "platforms" platformOK &&
      listFieldOK kvs "conveyors" conveyorOK &&
      (match jLookup kvs "emitter" with
       | some e => !jTruthy e || emitterOK e
       | none => true)) = true := h
  simp only [Bool.and_eq_true] at h'
  obtain ⟨⟨⟨hW, hP⟩, hC⟩, hE⟩ := h'
  rcases listFieldOK_load kvs "walls" wallOK loadWall (fun j hj => loadWall_ok hj) hW with
    ⟨xsW, walls, hWs, hWm⟩
  rcases listFieldOK_load kvs "platforms" platformOK loadPlatform
      (fun j hj => loadPlatform_ok hj) hP with ⟨xsP, plats, hPs, hPm⟩
  rcases listFieldOK_load kvs "conveyors" conveyorOK loadConveyor
      (fun j hj => loadConveyor_ok hj) hC with ⟨xsC, convs, hCs, hCm⟩
  have hEm : ∃ em,
      (if jTruthy ((jLookup kvs "emitter").getD .null) then
        loadEmitter ((jLookup kvs "emitter").getD .null)
      else .ok get_default_emitter) = .ok em ∧
      (jLookup kvs "emitter" = none → em = get_default_emitter) := by
    cases hl : jLookup kvs "emitter" with
    | none =>
      exact ⟨get_default_emitter, by simp [jTruthy], fun _ => rfl⟩
    | some e =>
      rw [hl] at hE
      have hE' : (!jTruthy e || emitterOK e) = true := hE
      by_cases ht : jTruthy e
      · have hok : emitterOK e = true := by simpa [ht] using hE'
        rcases loadEmitter_ok hok with ⟨em, hem⟩
        exact ⟨em, by simp [ht, hem], fun hc => absurd hc (by simp)⟩
      · exact ⟨get_default_emitter, by simp [ht], fun _ => rfl⟩
  rcases hEm with ⟨em, hem, hemd⟩
  refine ⟨⟨(jLookup kvs "name").getD (.str "level"), walls, plats, em, convs⟩, ?_, fun hn => hemd hn⟩
  simp only [load_level, jGet, ok_bind, hWs, hPs, hCs, jAsList, hWm, hPm, hCm, hem, ok_map]

/-- Witness for `load_level_wellTyped`: the empty JSON object loads with
every default. -/
theorem load_level_wellTyped_witness :
    docWellTyped (.obj []) = true ∧
    ∃ lvl, load_level (.obj []) = .ok lvl ∧
      (jLookup [] "emitter" = none → lvl.emitter = get_default_emitter) :=
  ⟨rfl, load_level_wellTyped [] rfl⟩

/-- C7 (counterexample).  `load_level` *does* raise on some documents: a
JSON array as document root makes `data.get("walls", [])` raise
`AttributeError`, which propagates to the caller. -/
theorem load_level_counterexample :
    load_level (Json.arr []) = Except.error "AttributeError" := rfl

/-! ## Saving (`level_io.save_level`)

`save_level` is modelled as the pure payload it writes: the file-system
write is outside the model.  `path` is dropped; the `emitter=None` /
`conveyors=None` parameter defaults are resolved by the caller. -/

/-- `int(round(x))` on both coordinates. -/
def roundPt (p : Point) : ℤ × ℤ := (pyRound p.1, pyRound p.2)

/-- A platform as serialized: position and length rounded to integers. -/
structure SavedPlatform where
  pos : ℤ × ℤ
  length : ℤ
  angularVelocity : ℚ
  deriving DecidableEq, Repr

/-- A conveyor as serialized: endpoints rounded to integers. -/
structure SavedConveyor where
  start : ℤ × ℤ
  endPt : ℤ × ℤ
  speed : ℚ
  deriving DecidableEq, Repr

/-- The emitter as serialized: `pos` is rounded to integers, the other
fields are written as floats (`count` as int). -/
structure SavedEmitter where
  pos : ℤ × ℤ
  angle : ℚ
  width : ℚ
  rate : ℚ
  count : ℤ
  speed : ℚ
  deriving DecidableEq, Repr

/-- The JSON payload written by `save_level`. -/
structure SavedLevel where
  name : String
  walls : List ((ℤ × ℤ) × (ℤ × ℤ))
  platforms : List SavedPlatform
  conveyors : List SavedConveyor
  emitter : SavedEmitter
  deriving DecidableEq, Repr

/-- `level_io.save_level`: every wall/platform/conveyor coordinate and the
platform length go through `int(round(.))`; so does `emitter["pos"]`; the
remaining emitter fields are written unconverted (`float(.)`/`int(.)`). -/
def save_level (walls : List Wall) (platforms : List Platform) (emitter : Emitter)
    (conveyors : List Conveyor) (name : String) : SavedLevel :=
  { name := name
    walls := walls.map fun w => (roundPt w.1, roundPt w.2)
    platforms := platforms.map fun p => ⟨roundPt p.pos, pyRound p.length, p.angularVelocity⟩
    conveyors := conveyors.map fun c => ⟨roundPt c.start, roundPt c.endPt, c.speed⟩
    emitter := ⟨roundPt emitter.pos, emitter.angle, emitter.width, emitter.rate,
      emitter.count, emitter.speed⟩ }

/-- `z` is a nearest integer to `x`. -/
def nearestInt (z : ℤ) (x : ℚ) : Prop := ∀ k : ℤ, |(z : ℚ) - x| ≤ |(k : ℚ) - x|

/-- C5 (amended).  `save_level` writes every wall, platform, and conveyor
coordinate (and the platform length) rounded to a nearest integer; the
emitter's `angle`, `width`, `rate`, `speed` and `count` keep their exact
in-memory values, but the emitter's `pos` is rounded like every other
coordinate (the original claim exempted it). -/
theorem save_level_spec (walls : List Wall) (platforms : List Platform)
    (emitter : Emitter) (conveyors : List Conveyor) (name : String) :
    ((save_level walls platforms emitter conveyors name).emitter.angle = emitter.angle ∧
     (save_level walls platforms emitter conveyors name).emitter.width = emitter.width ∧
     (save_level walls platforms emitter conveyors name).emitter.rate = emitter.rate ∧
     (save_level walls platforms emitter conveyors name).emitter.speed = emitter.speed ∧
     (save_level walls platforms emitter conveyors name).emitter.count = emitter.count) ∧
    (nearestInt (save_level walls platforms emitter conveyors name).emitter.pos.1
        emitter.pos.1 ∧
     nearestInt (save_level walls platforms emitter conveyors name).emitter.pos.2
        emitter.pos.2) ∧
    (∀ i (hi : i < walls.length)
        (hi2 : i < (save_level walls platforms emitter conveyors name).walls.length),
      nearestInt ((save_level walls platforms emitter conveyors name).walls.get
          ⟨i, hi2⟩).1.1 (walls.get ⟨i, hi⟩).1.1 ∧
      nearestInt ((save_level walls platforms emitter conveyors name).walls.get
          ⟨i, hi2⟩).1.2 (walls.get ⟨i, hi⟩).1.2 ∧
      nearestInt ((save_level walls platforms emitter conveyors name).walls.get
          ⟨i, hi2⟩).2.1 (walls.get ⟨i, hi⟩).2.1 ∧
      nearestInt ((save_level walls platforms emitter conveyors name).walls.get
          ⟨i, hi2⟩).2.2 (walls.get ⟨i, hi⟩).2.2) ∧
    (∀ i (hi : i < platforms.length)
        (hi2 : i < (save_level walls platforms emitter conveyors name).platforms.length),
      nearestInt ((save_level walls platforms emitter conveyors name).platforms.get
          ⟨i, hi2⟩).pos.1 (platforms.get ⟨i, hi⟩).pos.1 ∧
      nearestInt ((save_level walls platforms emitter conveyors name).platforms.get
          ⟨i, hi2⟩).pos.2 (platforms.get ⟨i, hi⟩).pos.2 ∧
      nearestInt ((save_level walls platforms emitter conveyors name).platforms.get
          ⟨i, hi2⟩).length (platforms.get ⟨i, hi⟩).length ∧
      ((save_level walls platforms emitter conveyors name).platforms.get
          ⟨i, hi2⟩).angularVelocity = (platforms.get ⟨i, hi⟩).angularVelocity) ∧
    (∀ i (hi : i < conveyors.length)
        (hi2 : i < (save_level walls platforms emitter conveyors name).conveyors.length),
      nearestInt ((save_level walls platforms emitter conveyors name).conveyors.get
          ⟨i, hi2⟩).start.1 (conveyors.get ⟨i, hi⟩).start.1 ∧
      nearestInt ((save_level walls platforms emitter conveyors name).conveyors.get
          ⟨i, hi2⟩).start.2 (conveyors.get ⟨i, hi⟩).start.2 ∧
      nearestInt ((save_level walls platforms emitter conveyors name).conveyors.get
          ⟨i, hi2⟩).endPt.1 (conveyors.get ⟨i, hi⟩).endPt.1 ∧
      nearestInt ((save_level walls platforms emitter conveyors name).conveyors.get
          ⟨i, hi2⟩).endPt.2 (conveyors.get ⟨i, hi⟩).endPt.2 ∧
      ((save_level walls platforms emitter conveyors name).conveyors.get
          ⟨i, hi2⟩).speed = (conveyors.get ⟨i, hi⟩).speed) := by
  refine ⟨⟨rfl, rfl, rfl, rfl, rfl⟩,
    ⟨pyRound_nearest emitter.pos.1, pyRound_nearest emitter.pos.2⟩, ?_, ?_, ?_⟩
  · intro i hi hi2
    have hg : (save_level walls platforms emitter conveyors name).walls.get ⟨i, hi2⟩ =
        (roundPt (walls.get ⟨i, hi⟩).1, roundPt (walls.get ⟨i, hi⟩).2) := by
      simp [save_level, List.get_map]
    rw [hg]
    exact ⟨pyRound_nearest _, pyRound_nearest _, pyRound_nearest _, pyRound_nearest _⟩
  · intro i hi hi2
    have hg : (save_level walls platforms emitter conveyors name).platforms.get ⟨i, hi2⟩ =
        ⟨roundPt (platforms.get ⟨i, hi⟩).pos, pyRound (platforms.get ⟨i, hi⟩).length,
         (platforms.get ⟨i, hi⟩).angularVelocity⟩ := by
      simp [save_level, List.get_map]
    rw [hg]
    exact ⟨pyRound_nearest _, pyRound_nearest _, pyRound_nearest _, rfl⟩
  · intro i hi hi2
    have hg : (save_level walls platforms emitter conveyors name).conveyors.get ⟨i, hi2⟩ =
        ⟨roundPt (conveyors.get ⟨i, hi⟩).start, roundPt (conveyors.get ⟨i, hi⟩).endPt,
         (conveyors.get ⟨i, hi⟩).speed⟩ := by
      simp [save_level, List.get_map]
    rw [hg]
    exact ⟨pyRound_nearest _, pyRound_nearest _, pyRound_nearest _, pyRound_nearest _, rfl⟩

/-- Witness for `save_level_spec` at a concrete wall list. -/
theorem save_level_spec_witness :
    (0 : ℕ) < [((((1 : ℚ)/3, (2 : ℚ)), ((5 : ℚ), (7 : ℚ))) : Wall)].length ∧
    nearestInt ((save_level [(((1 : ℚ)/3, 2), (5, 7))] [] get_default_emitter [] "lvl").walls.get
      ⟨0, by decide⟩).1.1 ((1 : ℚ)/3) :=
  ⟨by decide,
    ((save_level_spec [(((1 : ℚ)/3, 2), (5, 7))] [] get_default_emitter [] "lvl").2.2.1
      0 (by decide) (by decide)).1⟩

/-- C5 (counterexample).  The emitter's saved `pos` does *not* retain its
floating-point value: `save_level` rounds it, so an emitter at
`x = 400.5` is saved at `x = 400`. -/
theorem save_level_counterexample :
    (save_level [] [] ⟨(801/2, 80), 90, 60, 20, 100, 50⟩ [] "level").emitter.pos.1 = 400 ∧
    ((400 : ℤ) : ℚ) ≠ (801/2 : ℚ) := by
  constructor
  · show pyRound (801/2 : ℚ) = 400
    have hf : ⌊(801/2 : ℚ)⌋ = 400 := by norm_num [Int.floor_eq_iff]
    norm_num [pyRound, hf]
  · norm_num

/-! ## Race simulation (`marble_race.py`)

The physics engine is an opaque stepped service: each tick's `space.step`
outcome is an input (`newY`, the vertical position of each body after the
step), as are the randomized spawn position (`spawnY`) and the wall-clock
reading (`elapsed`, read through `pygame.time.get_ticks`).  A marble's
membership in the physics space is tracked by its `inSpace` flag (bodies
and marbles correspond 1:1).  Marble definitions carry only their `id`:
shape, color and name never influence the scheduling logic.  The `ending`
field instruments which of the two finishing conditions fired. -/

/-- `WIDTH, HEIGHT = 800, 800`. -/
def HEIGHT : ℚ := 800

/-- `MARBLE_RADIUS = 6` (the exit test uses this global, not the marble's
own radius). -/
def MARBLE_RADIUS : ℚ := 6

/-- One entry of `self.marbles`: id, `'active'`, `'tied_for_last'`, the
body's presence in the space, and its vertical position. -/
structure Marble where
  id : ℕ
  active : Bool
  tiedForLast : Bool
  inSpace : Bool
  y : ℚ
  deriving DecidableEq, Repr

/-- `self.state`. -/
inductive RaceState where
  | ready
  | running
  | finished
  | edit
  deriving DecidableEq, Repr

/-- Which finishing condition ended the race. -/
inductive Ending where
  | byCompletion
  | byTimeout
  deriving DecidableEq, Repr

/-- The race bookkeeping of `MarbleSimulation`. -/
structure SimState where
  state : RaceState
  marbleCount : ℕ
  emitRate : ℚ
  timeLimit : ℚ
  marbleQueue : List ℕ
  marbles : List Marble
  finishedRank : List Marble
  marblesEmitted : ℕ
  emitAccumulator : ℚ
  ending : Option Ending
  deriving DecidableEq, Repr

/-- One tick's opaque inputs: post-step positions per id, spawn positions
per id, and the wall-clock elapsed seconds. -/
structure TickInput where
  newY : ℕ → ℚ
  spawnY : ℕ → ℚ
  elapsed : ℚ

/-- `space.step(dt)`: the engine moves the bodies that are in the space. -/
def stepSpace (f : ℕ → ℚ) (s : SimState) : SimState :=
  { s with marbles := s.marbles.map fun m => if m.inSpace then { m with y := f m.id } else m }

/-- A freshly emitted marble (`emit_marble`'s appended record). -/
def spawnMarble (spawnY : ℕ → ℚ) (d : ℕ) : Marble :=
  ⟨d, true, false, true, spawnY d⟩

/-- The emission `while` loop of `update_physics`:
`while self.emit_accumulator >= emit_interval and self.marble_queue:` pop
one definition via `emit_marble` and subtract one interval.  The loop runs
at most `queue.length` times, so recursion on the queue is faithful. -/
def emitLoop (spawnY : ℕ → ℚ) (interval : ℚ) :
    List ℕ → List Marble → ℕ → ℚ → List ℕ × List Marble × ℕ × ℚ
  | [], marbles, emitted, acc => ([], marbles, emitted, acc)
  | d :: rest, marbles, emitted, acc =>
    if interval ≤ acc then
      emitLoop spawnY interval rest (marbles ++ [spawnMarble spawnY d]) (emitted + 1)
        (acc - interval)
    else (d :: rest, marbles, emitted, acc)

/-- The emission block of `update_physics`: only when the queue is
non-empty, accumulate `dt` and run the loop with `emit_interval = 1/rate`. -/
def emitPhase (dt : ℚ) (spawnY : ℕ → ℚ) (s : SimState) : SimState :=
  if s.marbleQueue.isEmpty then s
  else
    let r := emitLoop spawnY (1 / s.emitRate) s.marbleQueue s.marbles s.marblesEmitted
      (s.emitAccumulator + dt)
    { s with marbleQueue := r.1, marbles := r.2.1, marblesEmitted := r.2.2.1,
             emitAccumulator := r.2.2.2 }

/-- A marble exiting the bottom: `m['active']` and
`m['body'].position.y > HEIGHT + MARBLE_RADIUS`. -/
def exitsBottom (m : Marble) : Bool :=
  m.active && decide (HEIGHT + MARBLE_RADIUS < m.y)

/-- Marking an exited marble: inactive and removed from the space (its
`tied_for_last` key is never created on this path). -/
def finishMarble (m : Marble) : Marble := { m with active := false, inSpace := false }

/-- The timeout marking: inactive, `tied_for_last = True`, removed. -/
def tieMarble (m : Marble) : Marble :=
  { m with active := false, tiedForLast := true, inSpace := false }

/-- The exit scan of `update_physics`: the loop runs backwards over the
indices (`range(len-1, -1, -1)`), mutating entries in place and appending
each finisher, so within one tick the finishers are appended in reverse
list order; `self.marbles` itself keeps all entries. -/
def exitScan (s : SimState) : SimState :=
  { s with
    marbles := s.marbles.map fun m => if exitsBottom m then finishMarble m else m,
    finishedRank := s.finishedRank ++ (s.marbles.reverse.filter exitsBottom).map finishMarble }

/-- `MarbleSimulation.end_with_timeout`: every still-active marble is
marked inactive and `tied_for_last`, removed from the space, and appended
to the rank (in list order); the state becomes `finished`. -/
def end_with_timeout (s : SimState) : SimState :=
  { s with
    marbles := s.marbles.map fun m => if m.active then tieMarble m else m,
    finishedRank := s.finishedRank ++ (s.marbles.filter fun m => m.active).map tieMarble,
    state := .finished,
    ending := some .byTimeout }

/-- The finishing checks at the tail of `update_physics`, in source order:
completion count first, then timeout (`time_remaining = max(0, limit -
elapsed)`). -/
def finishCheck (elapsed : ℚ) (s : SimState) : SimState :=
  if s.finishedRank.length = s.marbleCount then
    { s with state := .finished, ending := some .byCompletion }
  else if max 0 (s.timeLimit - elapsed) ≤ 0 then end_with_timeout s
  else s

/-- `MarbleSimulation.update_physics`: step, emit, scan exits, check the
finishing conditions. -/
def update_physics (dt : ℚ) (inp : TickInput) (s : SimState) : SimState :=
  finishCheck inp.elapsed (exitScan (emitPhase dt inp.spawnY (stepSpace inp.newY s)))

/-- The main loop calls `update_physics` only while `state == "running"`. -/
def runTick (dt : ℚ) (inp : TickInput) (s : SimState) : SimState :=
  if s.state = .running then update_physics dt inp s else s

/-- A race: fold the ticks. -/
def runRace (dt : ℚ) : List TickInput → SimState → SimState
  | [], s => s
  | inp :: rest, s => runRace dt rest (runTick dt inp s)

/-- The state right after `start_simulation`: running, locked-in slider
values, a freshly generated queue (ids `1..count`, so `count` entries),
empty marble list and rank, zero emission state. -/
def initSimState (count : ℕ) (rate timeLimit : ℚ) (queue : List ℕ) : SimState :=
  { state := .running, marbleCount := count, emitRate := rate, timeLimit := timeLimit,
    marbleQueue := queue, marbles := [], finishedRank := [], marblesEmitted := 0,
    emitAccumulator := 0, ending := none }

/-- C3.  When the race ends by timeout, every marble still active is marked
inactive, flagged `tied_for_last`, removed from the physics space, and
appended to `finished_rank` exactly once (here: in list order); marbles
already finished are left unchanged, and the state becomes `finished`. -/
theorem end_with_timeout_spec (s : SimState)
    (hn : (s.marbles.map Marble.id).Nodup)
    (hr : ∀ m ∈ s.marbles, m.active = true → m.id ∉ s.finishedRank.map Marble.id) :
    (end_with_timeout s).state = .finished ∧
    (end_with_timeout s).finishedRank =
      s.finishedRank ++ (s.marbles.filter fun m => m.active).map tieMarble ∧
    (∀ m ∈ s.marbles, m.active = true →
      tieMarble m ∈ (end_with_timeout s).marbles ∧
      (tieMarble m).active = false ∧ (tieMarble m).tiedForLast = true ∧
      (tieMarble m).inSpace = false ∧
      ((end_with_timeout s).finishedRank.map Marble.id).count m.id = 1) ∧
    (∀ m ∈ s.marbles, m.active = false →
      m ∈ (end_with_timeout s).marbles ∧
      ((end_with_timeout s).finishedRank.map Marble.id).count m.id =
        (s.finishedRank.map Marble.id).count m.id) := by
  have hids : ((s.marbles.filter fun m => m.active).map tieMarble).map Marble.id =
      (s.marbles.filter fun m => m.active).map Marble.id := by
    rw [List.map_map]
    rfl
  refine ⟨rfl, rfl, ?_, ?_⟩
  · intro m hm ha
    have hmem : m ∈ s.marbles.filter fun m => m.active := List.mem_filter.2 ⟨hm, ha⟩
    refine ⟨?_, rfl, rfl, rfl, ?_⟩
    · show tieMarble m ∈ s.marbles.map fun m => if m.active then tieMarble m else m
      have h := List.mem_map_of_mem (fun x : Marble => if x.active then tieMarble x else x) hm
      simpa [ha] using h
    · show ((s.finishedRank ++ (s.marbles.filter fun m => m.active).map tieMarble).map
        Marble.id).count m.id = 1
      rw [List.map_append, List.count_append, hids]
      have h0 : (s.finishedRank.map Marble.id).count m.id = 0 :=
        List.count_eq_zero.2 (hr m hm ha)
      have hnd : ((s.marbles.filter fun m => m.active).map Marble.id).Nodup :=
        List.Nodup.sublist (List.Sublist.map Marble.id (List.filter_sublist s.marbles)) hn
      have h1 : ((s.marbles.filter fun m => m.active).map Marble.id).count m.id = 1 :=
        List.count_eq_one_of_mem hnd (List.mem_map_of_mem Marble.id hmem)
      omega
  · intro m hm ha
    constructor
    · show m ∈ s.marbles.map fun m => if m.active then tieMarble m else m
      have h := List.mem_map_of_mem (fun x : Marble => if x.active then tieMarble x else x) hm
      simpa [ha] using h
    · show ((s.finishedRank ++ (s.marbles.filter fun m => m.active).map tieMarble).map
        Marble.id).count m.id =
        (s.finishedRank.map Marble.id).count m.id
      rw [List.map_append, List.count_append, hids]
      have h0 : ((s.marbles.filter fun m => m.active).map Marble.id).count m.id = 0 := by
        apply List.count_eq_zero.2
        intro hc
        rcases List.mem_map.1 hc with ⟨m', hm', hid⟩
        have hm'2 := (List.mem_filter.1 hm').1
        have hact := (List.mem_filter.1 hm').2
        have heq : m' = m := List.inj_on_of_nodup_map hn hm'2 hm hid
        rw [heq] at hact
        rw [ha] at hact
        exact Bool.noConfusion hact
      omega

/-- Witness for `end_with_timeout_spec`: one finished and one active
marble at timeout. -/
theorem end_with_timeout_spec_witness :
    (([⟨1, false, false, false, 900⟩, ⟨2, true, false, true, 100⟩] :
        List Marble).map Marble.id).Nodup ∧
    (end_with_timeout
      { state := .running, marbleCount := 2, emitRate := 20, timeLimit := 10,
        marbleQueue := [], marbles := [⟨1, false, false, false, 900⟩, ⟨2, true, false, true, 100⟩],
        finishedRank := [⟨1, false, false, false, 900⟩], marblesEmitted := 2,
        emitAccumulator := 0, ending := none }).state = .finished := by
  constructor
  · decide
  · exact (end_with_timeout_spec
      { state := .running, marbleCount := 2, emitRate := 20, timeLimit := 10,
        marbleQueue := [], marbles := [⟨1, false, false, false, 900⟩, ⟨2, true, false, true, 100⟩],
        finishedRank := [⟨1, false, false, false, 900⟩], marblesEmitted := 2,
        emitAccumulator := 0, ending := none } (by decide) (by decide)).1

/-! ### The emission loop, quantitatively -/

/-- With a positive interval and a nonnegative accumulator, the emission
loop pops exactly `min queue.length ⌊acc/interval⌋` definitions, in queue
order, subtracting one interval per pop. -/
lemma emitLoop_count (spawnY : ℕ → ℚ) (interval : ℚ) (hpos : 0 < interval) :
    ∀ (queue : List ℕ) (marbles : List Marble) (emitted : ℕ) (acc : ℚ), 0 ≤ acc →
      emitLoop spawnY interval queue marbles emitted acc =
        (queue.drop (min queue.length ⌊acc / interval⌋.toNat),
         marbles ++ (queue.take (min queue.length ⌊acc / interval⌋.toNat)).map
           (spawnMarble spawnY),
         emitted + min queue.length ⌊acc / interval⌋.toNat,
         acc - (min queue.length ⌊acc / interval⌋.toNat) * interval) := by
  intro queue
  induction queue with
  | nil =>
    intro marbles emitted acc hacc
    simp [emitLoop]
  | cons d rest ih =>
    intro marbles emitted acc hacc
    by_cases hc : interval ≤ acc
    · have h1 : (1 : ℤ) ≤ ⌊acc / interval⌋ := by
        rw [Int.le_floor]
        push_cast
        rw [le_div_iff hpos]
        linarith
      have hsub : ⌊(acc - interval) / interval⌋ = ⌊acc / interval⌋ - 1 := by
        have hdiv : (acc - interval) / interval = acc / interval - 1 := by
          field_simp
        rw [hdiv]
        exact_mod_cast Int.floor_sub_int (acc / interval) 1
      have htn : ⌊acc / interval⌋.toNat = ⌊(acc - interval) / interval⌋.toNat + 1 := by
        rw [hsub]; omega
      have hrec : emitLoop spawnY interval (d :: rest) marbles emitted acc =
          emitLoop spawnY interval rest (marbles ++ [spawnMarble spawnY d]) (emitted + 1)
            (acc - interval) := by
        simp [emitLoop, hc]
      rw [hrec, ih _ _ _ (by linarith)]
      rw [htn, List.length_cons, Nat.succ_min_succ]
      refine Prod.ext rfl (Prod.ext ?_ (Prod.ext ?_ ?_))
      · show marbles ++ [spawnMarble spawnY d] ++
            ((rest.take (min rest.length ⌊(acc - interval) / interval⌋.toNat)).map
              (spawnMarble spawnY)) =
          marbles ++ (((d :: rest).take
            (min rest.length ⌊(acc - interval) / interval⌋.toNat + 1)).map
              (spawnMarble spawnY))
        simp [List.take_succ_cons]
      · show emitted + 1 + min rest.length ⌊(acc - interval) / interval⌋.toNat =
          emitted + (min rest.length ⌊(acc - interval) / interval⌋.toNat + 1)
        omega
      · show acc - interval -
            (min rest.length ⌊(acc - interval) / interval⌋.toNat) * interval =
          acc - ((min rest.length ⌊(acc - interval) / interval⌋.toNat + 1) : ℕ) * interval
        push_cast
        ring
    · have h0 : ⌊acc / interval⌋ = 0 := by
        have hlt : acc / interval < 1 := (div_lt_one hpos).2 (lt_of_not_le hc)
        have hge : 0 ≤ acc / interval := div_nonneg hacc hpos.le
        rw [Int.floor_eq_zero_iff]
        exact ⟨hge, hlt⟩
      simp [emitLoop, hc, h0]

/-! ### Run invariants -/

/-- Bookkeeping invariant that holds along every race, timeouts included:
`marble_count` matches the initial queue, the queue is the unemitted
suffix, the marble list carries the emitted prefix's ids in order, and the
rank holds exactly the inactive marbles. -/
def baseInv (Q : List ℕ) (s : SimState) : Prop :=
  s.marbleCount = Q.length ∧
  s.marbleQueue = Q.drop s.marblesEmitted ∧
  s.marbles.map Marble.id = Q.take s.marblesEmitted ∧
  s.marblesEmitted ≤ Q.length ∧
  s.finishedRank.length = s.marbles.countP fun m => !m.active

/-- Accumulator invariant (under "no timeout fired"): the accumulator
tracks simulated time `T` modulo emitted intervals while the queue lasts,
and the race can only have finished with the queue exhausted. -/
def emitInv (Q : List ℕ) (T : ℚ) (s : SimState) : Prop :=
  0 ≤ s.emitAccumulator ∧
  (s.marblesEmitted < Q.length →
    s.emitAccumulator = T - s.marblesEmitted * (1 / s.emitRate) ∧
    s.emitAccumulator < 1 / s.emitRate) ∧
  (s.marblesEmitted = Q.length → (Q.length : ℚ) * (1 / s.emitRate) ≤ T) ∧
  (s.state = .running ∨ (s.state = .finished ∧ s.marblesEmitted = Q.length))

lemma countP_or_disjoint (p q : Marble → Bool) (h : ∀ m, p m = true → q m = false) :
    ∀ l : List Marble, l.countP (fun m => p m || q m) = l.countP p + l.countP q := by
  intro l
  induction l with
  | nil => simp
  | cons m t ih =>
    simp only [List.countP_cons, ih]
    by_cases hp : p m = true
    · have e1 : (if (p m || q m) = true then 1 else 0) = 1 := by simp [hp]
      have e2 : (if p m = true then 1 else 0) = 1 := by simp [hp]
      have e3 : (if q m = true then 1 else 0) = 0 := by simp [h m hp]
      rw [e1, e2, e3]
      omega
    · by_cases hq : q m = true
      · have e1 : (if (p m || q m) = true then 1 else 0) = 1 := by simp [hp, hq]
        have e2 : (if p m = true then 1 else 0) = 0 := by simp [hp]
        have e3 : (if q m = true then 1 else 0) = 1 := by simp [hq]
        rw [e1, e2, e3]
        omega
      · have e1 : (if (p m || q m) = true then 1 else 0) = 0 := by simp [hp, hq]
        have e2 : (if p m = true then 1 else 0) = 0 := by simp [hp]
        have e3 : (if q m = true then 1 else 0) = 0 := by simp [hq]
        rw [e1, e2, e3]
        omega

lemma countP_reverse (p : Marble → Bool) (l : List Marble) :
    l.reverse.countP p = l.countP p := by
  induction l with
  | nil => rfl
  | cons m t ih =>
    rw [List.reverse_cons, List.countP_append, List.countP_cons, ih]
    simp only [List.countP_cons, List.countP_nil]
    omega

lemma map_comp_pointwise {β : Type} (g : Marble → Marble) (f2 : Marble → β)
    (h : ∀ m, f2 (g m) = f2 m) (l : List Marble) : (l.map g).map f2 = l.map f2 := by
  induction l with
  | nil => rfl
  | cons m t ih => simp only [List.map_cons, ih, h m]

lemma countP_map_pointwise (g : Marble → Marble) (p q : Marble → Bool)
    (h : ∀ m, p (g m) = q m) (l : List Marble) : (l.map g).countP p = l.countP q := by
  induction l with
  | nil => rfl
  | cons m t ih => simp only [List.map_cons, List.countP_cons, ih, h m]

lemma stepSpace_mapId (f : ℕ → ℚ) (s : SimState) :
    (stepSpace f s).marbles.map Marble.id = s.marbles.map Marble.id :=
  map_comp_pointwise _ _ (fun m => by by_cases h : m.inSpace <;> simp [h]) s.marbles

lemma stepSpace_countP (f : ℕ → ℚ) (s : SimState) :
    (stepSpace f s).marbles.countP (fun m => !m.active) =
      s.marbles.countP fun m => !m.active :=
  countP_map_pointwise _ _ _ (fun m => by by_cases h : m.inSpace <;> simp [h]) s.marbles

lemma exitsBottom_active {m : Marble} (h : exitsBottom m = true) : m.active = true :=
  (Bool.and_eq_true _ _ |>.mp h).1

lemma exitScan_mapId (s : SimState) :
    (exitScan s).marbles.map Marble.id = s.marbles.map Marble.id :=
  map_comp_pointwise _ _
    (fun m => by by_cases h : exitsBottom m <;> simp [h, finishMarble]) s.marbles

lemma exitScan_countP (s : SimState) :
    (exitScan s).marbles.countP (fun m => !m.active) =
      (s.marbles.countP fun m => !m.active) + s.marbles.countP exitsBottom := by
  have h1 : (exitScan s).marbles.countP (fun m => !m.active) =
      s.marbles.countP fun m => exitsBottom m || !m.active := by
    apply countP_map_pointwise
    intro m
    by_cases h : exitsBottom m <;> simp [h, finishMarble]
  rw [h1, countP_or_disjoint exitsBottom (fun m => !m.active)
    (fun m hm => by simp [exitsBottom_active hm])]
  omega

lemma exitScan_rankLen (s : SimState) :
    (exitScan s).finishedRank.length =
      s.finishedRank.length + s.marbles.countP exitsBottom := by
  show (s.finishedRank ++ (s.marbles.reverse.filter exitsBottom).map finishMarble).length = _
  rw [List.length_append, List.length_map, ← List.countP_eq_length_filter,
    countP_reverse]

lemma end_with_timeout_countP (s : SimState) :
    (end_with_timeout s).marbles.countP (fun m => !m.active) = s.marbles.length := by
  have h1 : (end_with_timeout s).marbles.countP (fun m => !m.active) =
      s.marbles.countP fun _ => true := by
    apply countP_map_pointwise
    intro m
    by_cases h : m.active <;> simp [h, tieMarble]
  rw [h1]
  induction s.marbles with
  | nil => rfl
  | cons m t ih => simp [List.countP_cons, ih]

lemma end_with_timeout_rankLen (s : SimState) :
    (end_with_timeout s).finishedRank.length =
      s.finishedRank.length + s.marbles.countP (fun m => m.active) := by
  show (s.finishedRank ++ (s.marbles.filter fun m => m.active).map tieMarble).length = _
  rw [List.length_append, List.length_map, ← List.countP_eq_length_filter]

lemma countP_active_add_inactive (l : List Marble) :
    l.countP (fun m => m.active) + l.countP (fun m => !m.active) = l.length := by
  induction l with
  | nil => rfl
  | cons m t ih =>
    simp only [List.countP_cons, List.length_cons]
    by_cases h : m.active <;> simp [h] <;> omega

lemma spawn_mapId (sy : ℕ → ℚ) (l : List ℕ) :
    (l.map (spawnMarble sy)).map Marble.id = l := by
  induction l with
  | nil => rfl
  | cons d t ih => simp only [List.map_cons, ih, spawnMarble]

lemma spawn_countP (sy : ℕ → ℚ) (l : List ℕ) :
    (l.map (spawnMarble sy)).countP (fun m => !m.active) = 0 := by
  induction l with
  | nil => rfl
  | cons d t ih => simp [List.countP_cons, ih, spawnMarble]

/-- Characterization of one emission phase: some `k` definitions are
spawned in queue order; the accumulator stays nonnegative, tracks the
subtracted intervals, and ends below one interval unless the queue ran
out. -/
lemma emitPhase_spec (dt : ℚ) (sy : ℕ → ℚ) (s1 : SimState) (hrate : 0 < s1.emitRate)
    (hacc : 0 ≤ s1.emitAccumulator) (hdt : 0 < dt) :
    ∃ k, (emitPhase dt sy s1).marbleQueue = s1.marbleQueue.drop k ∧
      (emitPhase dt sy s1).marbles =
        s1.marbles ++ (s1.marbleQueue.take k).map (spawnMarble sy) ∧
      (emitPhase dt sy s1).marblesEmitted = s1.marblesEmitted + k ∧
      k ≤ s1.marbleQueue.length ∧
      (emitPhase dt sy s1).state = s1.state ∧
      (emitPhase dt sy s1).finishedRank = s1.finishedRank ∧
      (emitPhase dt sy s1).emitRate = s1.emitRate ∧
      (emitPhase dt sy s1).timeLimit = s1.timeLimit ∧
      (emitPhase dt sy s1).marbleCount = s1.marbleCount ∧
      (emitPhase dt sy s1).ending = s1.ending ∧
      0 ≤ (emitPhase dt sy s1).emitAccumulator ∧
      (s1.marbleQueue.isEmpty = true →
        k = 0 ∧ (emitPhase dt sy s1).emitAccumulator = s1.emitAccumulator) ∧
      (s1.marbleQueue.isEmpty = false →
        (emitPhase dt sy s1).emitAccumulator =
          s1.emitAccumulator + dt - k * (1 / s1.emitRate) ∧
        (k < s1.marbleQueue.length →
          (emitPhase dt sy s1).emitAccumulator < 1 / s1.emitRate) ∧
        (k : ℚ) * (1 / s1.emitRate) ≤ s1.emitAccumulator + dt) := by
  have hint : 0 < 1 / s1.emitRate := by positivity
  by_cases hq : s1.marbleQueue.isEmpty
  · have hphase : emitPhase dt sy s1 = s1 := by
      simp [emitPhase, hq]
    refine ⟨0, ?_⟩
    rw [hphase]
    refine ⟨by simp, by simp, rfl, Nat.zero_le _, rfl, rfl, rfl, rfl, rfl, rfl, hacc,
      fun _ => ⟨rfl, rfl⟩, fun hf => absurd hq (by rw [hf]; exact Bool.noConfusion)⟩
  · have hq' : s1.marbleQueue.isEmpty = false := by
      cases h : s1.marbleQueue.isEmpty
      · rfl
      · exact absurd h hq
    have hacc1 : (0 : ℚ) ≤ s1.emitAccumulator + dt := by linarith
    have hloop := emitLoop_count sy (1 / s1.emitRate) hint s1.marbleQueue s1.marbles
      s1.marblesEmitted (s1.emitAccumulator + dt) hacc1
    have hphase : emitPhase dt sy s1 =
        { s1 with
          marbleQueue := (emitLoop sy (1 / s1.emitRate) s1.marbleQueue s1.marbles
            s1.marblesEmitted (s1.emitAccumulator + dt)).1,
          marbles := (emitLoop sy (1 / s1.emitRate) s1.marbleQueue s1.marbles
            s1.marblesEmitted (s1.emitAccumulator + dt)).2.1,
          marblesEmitted := (emitLoop sy (1 / s1.emitRate) s1.marbleQueue s1.marbles
            s1.marblesEmitted (s1.emitAccumulator + dt)).2.2.1,
          emitAccumulator := (emitLoop sy (1 / s1.emitRate) s1.marbleQueue s1.marbles
            s1.marblesEmitted (s1.emitAccumulator + dt)).2.2.2 } := by
      simp [emitPhase, hq]
    set F := ⌊(s1.emitAccumulator + dt) / (1 / s1.emitRate)⌋ with hF
    have hF0 : 0 ≤ F := Int.floor_nonneg.mpr (div_nonneg hacc1 hint.le)
    set k := min s1.marbleQueue.length F.toNat with hk
    have hkF : (k : ℚ) ≤ (s1.emitAccumulator + dt) / (1 / s1.emitRate) := by
      have h1 : (k : ℤ) ≤ F := by
        have : k ≤ F.toNat := Nat.min_le_right _ _
        omega
      have h2 : ((k : ℤ) : ℚ) ≤ (F : ℚ) := by exact_mod_cast h1
      calc ((k : ℕ) : ℚ) = ((k : ℤ) : ℚ) := by push_cast; ring
        _ ≤ (F : ℚ) := h2
        _ ≤ (s1.emitAccumulator + dt) / (1 / s1.emitRate) := Int.floor_le _
    have hkmul : (k : ℚ) * (1 / s1.emitRate) ≤ s1.emitAccumulator + dt :=
      (le_div_iff hint).mp hkF
    refine ⟨k, ?_, ?_, ?_, Nat.min_le_left _ _, ?_, ?_, ?_, ?_, ?_, ?_, ?_, ?_, ?_⟩
    · rw [hphase, hloop]
    · rw [hphase, hloop]
    · rw [hphase, hloop]
    · rw [hphase]
    · rw [hphase]
    · rw [hphase]
    · rw [hphase]
    · rw [hphase]
    · rw [hphase]
    · rw [hphase, hloop]
      show (0 : ℚ) ≤ s1.emitAccumulator + dt - k * (1 / s1.emitRate)
      linarith
    · intro hf; exact absurd hf (by rw [hq']; exact Bool.noConfusion)
    · intro _
      refine ⟨by rw [hphase, hloop], ?_, hkmul⟩
      intro hklt
      rw [hphase, hloop]
      show s1.emitAccumulator + dt - k * (1 / s1.emitRate) < 1 / s1.emitRate
      have hkeq : k = F.toNat := by omega
      have hFk : (F : ℚ) = (k : ℚ) := by
        rw [hkeq]
        rw [show ((F.toNat : ℕ) : ℚ) = ((F.toNat : ℤ) : ℚ) from by push_cast; ring,
          Int.toNat_of_nonneg hF0]
      have hlt := Int.lt_floor_add_one ((s1.emitAccumulator + dt) / (1 / s1.emitRate))
      rw [← hF] at hlt
      have : (s1.emitAccumulator + dt) / (1 / s1.emitRate) < (k : ℚ) + 1 := by
        rw [← hFk]; exact_mod_cast hlt
      have h2 : s1.emitAccumulator + dt < ((k : ℚ) + 1) * (1 / s1.emitRate) :=
        (div_lt_iff hint).mp this
      nlinarith

/-- One tick preserves both run invariants, provided the wall clock has not
reached the time limit and the emission rate is positive. -/
lemma runTick_inv (Q : List ℕ) (dt : ℚ) (inp : TickInput) (T : ℚ) (s : SimState)
    (hdt : 0 < dt) (hrate : 0 < s.emitRate) (hel : inp.elapsed < s.timeLimit)
    (hb : baseInv Q s) (he : emitInv Q T s) :
    baseInv Q (runTick dt inp s) ∧ emitInv Q (T + dt) (runTick dt inp s) := by
  obtain ⟨hcount, hqueue, hids, hele, hrank⟩ := hb
  obtain ⟨hacc0, haccrel, hfull, hstate⟩ := he
  have hint : 0 < 1 / s.emitRate := by positivity
  rcases hstate with hrun | ⟨hfin, hdone⟩
  · -- running: the full update runs
    have htick : runTick dt inp s =
        finishCheck inp.elapsed (exitScan (emitPhase dt inp.spawnY (stepSpace inp.newY s))) := by
      simp [runTick, hrun, update_physics]
    set s1 := stepSpace inp.newY s with hs1
    have h1ids : s1.marbles.map Marble.id = Q.take s.marblesEmitted := by
      rw [hs1, stepSpace_mapId]; exact hids
    have h1cnt : s1.marbles.countP (fun m => !m.active) =
        s.marbles.countP fun m => !m.active := stepSpace_countP _ _
    have h1que : s1.marbleQueue = Q.drop s.marblesEmitted := hqueue
    have h1r : s1.emitRate = s.emitRate := rfl
    have h1a : s1.emitAccumulator = s.emitAccumulator := rfl
    rcases emitPhase_spec dt inp.spawnY s1 hrate hacc0 hdt with
      ⟨k, h2que, h2mar, h2e, h2kle, h2st, h2rank, h2rate, h2lim, h2cnt2, h2end,
        h2acc0, h2empty, h2nonempty⟩
    set s2 := emitPhase dt inp.spawnY s1 with hs2
    set e := s.marblesEmitted with hE
    have h2ids : s2.marbles.map Marble.id = Q.take (e + k) := by
      rw [h2mar, List.map_append, h1ids, spawn_mapId, h1que]
      exact (List.take_add Q e k).symm
    have h2queQ : s2.marbleQueue = Q.drop (e + k) := by
      rw [h2que, h1que, List.drop_drop, Nat.add_comm]
    have h2ele : e + k ≤ Q.length := by
      have hk2 := h2kle
      rw [h1que, List.length_drop] at hk2
      omega
    have h2cntP : s2.marbles.countP (fun m => !m.active) =
        s.marbles.countP fun m => !m.active := by
      rw [h2mar, List.countP_append, spawn_countP, h1cnt]
      omega
    have h2emit : s2.marblesEmitted = e + k := h2e
    have hCL :
        (e + k < Q.length →
          s2.emitAccumulator = (T + dt) - ((e + k : ℕ) : ℚ) * (1 / s.emitRate) ∧
          s2.emitAccumulator < 1 / s.emitRate) ∧
        (e + k = Q.length → (Q.length : ℚ) * (1 / s.emitRate) ≤ T + dt) := by
      by_cases hq : s1.marbleQueue.isEmpty
      · obtain ⟨hk0, hacc2⟩ := h2empty hq
        have hqnil : s1.marbleQueue = [] := by
          cases hql : s1.marbleQueue
          · rfl
          · rw [hql] at hq; exact absurd hq (by simp)
        rw [h1que] at hqnil
        have hlenle := List.drop_eq_nil_iff_le.mp hqnil
        have heQ : e = Q.length := by omega
        subst hk0
        constructor
        · intro h; omega
        · intro _
          have := hfull heQ
          linarith
      · have hq2 : s1.marbleQueue.isEmpty = false := by
          cases hql : s1.marbleQueue.isEmpty
          · rfl
          · exact absurd hql hq
        obtain ⟨hacc2, hlt, hmul⟩ := h2nonempty hq2
        rw [h1r, h1a] at hacc2 hmul
        rw [h1r] at hlt
        have heQlt : e < Q.length := by
          have hne : s1.marbleQueue ≠ [] := by
            intro hnil
            rw [hnil] at hq2
            exact absurd hq2 (by simp)
          rw [h1que] at hne
          by_contra hcon
          push_neg at hcon
          exact hne (List.drop_eq_nil_iff_le.mpr (by omega))
        obtain ⟨haccT, hacclt⟩ := haccrel heQlt
        constructor
        · intro hlt2
          have hklt : k < s1.marbleQueue.length := by
            rw [h1que, List.length_drop]
            omega
          refine ⟨?_, hlt hklt⟩
          rw [hacc2, haccT]
          push_cast
          ring
        · intro heq
          rw [haccT] at hmul
          have hcast : ((Q.length : ℕ) : ℚ) = (e : ℚ) + (k : ℚ) := by
            rw [← heq]; push_cast; ring
          rw [hcast]
          have hsplit : ((e : ℚ) + (k : ℚ)) * (1 / s.emitRate) =
              (e : ℚ) * (1 / s.emitRate) + (k : ℚ) * (1 / s.emitRate) := by ring
          rw [hsplit]
          linarith
    set s3 := exitScan s2 with hs3
    set c := s2.marbles.countP exitsBottom with hc
    have h3ids : s3.marbles.map Marble.id = Q.take (e + k) := by
      rw [hs3, exitScan_mapId]; exact h2ids
    have h3cnt : s3.marbles.countP (fun m => !m.active) =
        (s.marbles.countP fun m => !m.active) + c := by
      rw [hs3, exitScan_countP, h2cntP]
    have h2rankS : s2.finishedRank = s.finishedRank := h2rank
    have h3rank : s3.finishedRank.length = s.finishedRank.length + c := by
      rw [hs3, exitScan_rankLen, h2rankS]
    have h3len : s3.marbles.length = e + k := by
      have hh := congrArg List.length h3ids
      rw [List.length_map, List.length_take] at hh
      omega
    have hrank3le : s3.finishedRank.length ≤ e + k := by
      have hle := List.countP_le_length (p := fun m => !m.active) (l := s3.marbles)
      rw [h3cnt, h3len] at hle
      rw [h3rank, hrank]
      omega
    -- facts about `s3` phrased through the propositional phase equations
    have b_count : s3.marbleCount = Q.length := by
      have hc2 : s3.marbleCount = s1.marbleCount := h2cnt2
      rw [hc2]; exact hcount
    have b_rate : s3.emitRate = s.emitRate := h2rate
    have b_lim : s3.timeLimit = s.timeLimit := h2lim
    have b_emit : s3.marblesEmitted = e + k := h2emit
    have b_queue : s3.marbleQueue = Q.drop (e + k) := h2queQ
    have b_acc0 : (0 : ℚ) ≤ s3.emitAccumulator := h2acc0
    have b_state : s3.state = .running := by
      have hst : s3.state = s1.state := h2st
      rw [hst]; exact hrun
    have b_accCL :
        (e + k < Q.length →
          s3.emitAccumulator = (T + dt) - ((e + k : ℕ) : ℚ) * (1 / s.emitRate) ∧
          s3.emitAccumulator < 1 / s.emitRate) ∧
        (e + k = Q.length → (Q.length : ℚ) * (1 / s.emitRate) ≤ T + dt) := hCL
    by_cases hcomp : s3.finishedRank.length = s3.marbleCount
    · have hfc : finishCheck inp.elapsed s3 =
          { s3 with state := .finished, ending := some .byCompletion } := by
        simp [finishCheck, hcomp]
      have hdone2 : e + k = Q.length := by
        have h1 : s3.finishedRank.length = Q.length := by rw [hcomp, b_count]
        omega
      rw [htick, hfc]
      refine ⟨⟨?_, ?_, ?_, ?_, ?_⟩, ?_, ?_, ?_, ?_⟩
      · show s3.marbleCount = Q.length
        exact b_count
      · show s3.marbleQueue = Q.drop s3.marblesEmitted
        rw [b_emit]; exact b_queue
      · show s3.marbles.map Marble.id = Q.take s3.marblesEmitted
        rw [b_emit]; exact h3ids
      · show s3.marblesEmitted ≤ Q.length
        rw [b_emit]; exact h2ele
      · show s3.finishedRank.length = s3.marbles.countP fun m => !m.active
        rw [h3rank, h3cnt, hrank]
      · show (0 : ℚ) ≤ s3.emitAccumulator
        exact b_acc0
      · show s3.marblesEmitted < Q.length → _
        rw [b_emit]
        intro h; omega
      · show s3.marblesEmitted = Q.length →
          (Q.length : ℚ) * (1 / s3.emitRate) ≤ T + dt
        rw [b_emit, b_rate]
        intro _
        exact b_accCL.2 hdone2
      · refine Or.inr ⟨rfl, ?_⟩
        show s3.marblesEmitted = Q.length
        rw [b_emit]; exact hdone2
    · have hnotime : ¬ max 0 (s3.timeLimit - inp.elapsed) ≤ 0 := by
        rw [b_lim]
        have h1 : 0 < s.timeLimit - inp.elapsed := by linarith
        push_neg
        exact lt_of_lt_of_le h1 (le_max_right 0 _)
      have hfc : finishCheck inp.elapsed s3 = s3 := by
        simp only [finishCheck, if_neg hcomp, if_neg hnotime]
      rw [htick, hfc]
      refine ⟨⟨b_count, ?_, ?_, ?_, ?_⟩, b_acc0, ?_, ?_, Or.inl b_state⟩
      · rw [b_emit]; exact b_queue
      · rw [b_emit]; exact h3ids
      · rw [b_emit]; exact h2ele
      · rw [h3rank, h3cnt, hrank]
      · rw [b_emit, b_rate]
        exact b_accCL.1
      · rw [b_emit, b_rate]
        exact b_accCL.2
  · -- already finished: the tick is a no-op
    have htick : runTick dt inp s = s := by
      simp [runTick, hfin]
    rw [htick]
    refine ⟨⟨hcount, hqueue, hids, hele, hrank⟩, hacc0, ?_, ?_, Or.inr ⟨hfin, hdone⟩⟩
    · intro hlt; omega
    · intro _
      have := hfull hdone
      linarith

/-- The configuration fields are never written by the phases. -/
lemma emitPhase_fields (dt : ℚ) (sy : ℕ → ℚ) (s : SimState) :
    (emitPhase dt sy s).emitRate = s.emitRate ∧
    (emitPhase dt sy s).timeLimit = s.timeLimit ∧
    (emitPhase dt sy s).marbleCount = s.marbleCount ∧
    (emitPhase dt sy s).state = s.state ∧
    (emitPhase dt sy s).ending = s.ending ∧
    (emitPhase dt sy s).finishedRank = s.finishedRank := by
  by_cases h : s.marbleQueue.isEmpty <;> simp [emitPhase, h]

lemma end_with_timeout_fields (s : SimState) :
    (end_with_timeout s).emitRate = s.emitRate ∧
    (end_with_timeout s).timeLimit = s.timeLimit ∧
    (end_with_timeout s).marbleCount = s.marbleCount :=
  ⟨rfl, rfl, rfl⟩

lemma finishCheck_fields (el : ℚ) (s : SimState) :
    (finishCheck el s).emitRate = s.emitRate ∧
    (finishCheck el s).timeLimit = s.timeLimit ∧
    (finishCheck el s).marbleCount = s.marbleCount := by
  unfold finishCheck
  by_cases h1 : s.finishedRank.length = s.marbleCount
  · simp [h1]
  · by_cases h2 : max 0 (s.timeLimit - el) ≤ 0 <;> simp [h1, h2, end_with_timeout]

lemma runTick_fields (dt : ℚ) (inp : TickInput) (s : SimState) :
    (runTick dt inp s).emitRate = s.emitRate ∧
    (runTick dt inp s).timeLimit = s.timeLimit ∧
    (runTick dt inp s).marbleCount = s.marbleCount := by
  unfold runTick
  by_cases h : s.state = .running
  · rw [if_pos h]
    unfold update_physics
    obtain ⟨e1, e2, e3, _, _, _⟩ :=
      emitPhase_fields dt inp.spawnY (stepSpace inp.newY s)
    obtain ⟨f1, f2, f3⟩ :=
      finishCheck_fields inp.elapsed (exitScan (emitPhase dt inp.spawnY (stepSpace inp.newY s)))
    exact ⟨by rw [f1]; exact e1, by rw [f2]; exact e2, by rw [f3]; exact e3⟩
  · rw [if_neg h]
    exact ⟨rfl, rfl, rfl⟩

lemma runRace_fields (dt : ℚ) :
    ∀ (inputs : List TickInput) (s : SimState),
      (runRace dt inputs s).emitRate = s.emitRate ∧
      (runRace dt inputs s).timeLimit = s.timeLimit ∧
      (runRace dt inputs s).marbleCount = s.marbleCount := by
  intro inputs
  induction inputs with
  | nil => intro s; exact ⟨rfl, rfl, rfl⟩
  | cons inp rest ih =>
    intro s
    obtain ⟨i1, i2, i3⟩ := ih (runTick dt inp s)
    obtain ⟨t1, t2, t3⟩ := runTick_fields dt inp s
    exact ⟨by rw [show runRace dt (inp :: rest) s = runRace dt rest (runTick dt inp s) from rfl,
        i1, t1],
      by rw [show runRace dt (inp :: rest) s = runRace dt rest (runTick dt inp s) from rfl,
        i2, t2],
      by rw [show runRace dt (inp :: rest) s = runRace dt rest (runTick dt inp s) from rfl,
        i3, t3]⟩

/-- Hypothesis-free shape of the emission loop: some `k ≤ queue.length`
definitions move from the queue to the marble list, in order. -/
lemma emitLoop_shape (sy : ℕ → ℚ) (interval : ℚ) :
    ∀ (queue : List ℕ) (marbles : List Marble) (emitted : ℕ) (acc : ℚ),
      ∃ k, k ≤ queue.length ∧
        emitLoop sy interval queue marbles emitted acc =
          (queue.drop k, marbles ++ (queue.take k).map (spawnMarble sy), emitted + k,
           acc - k * interval) := by
  intro queue
  induction queue with
  | nil =>
    intro marbles emitted acc
    exact ⟨0, Nat.le_refl 0, by simp [emitLoop]⟩
  | cons d rest ih =>
    intro marbles emitted acc
    by_cases hc : interval ≤ acc
    · rcases ih (marbles ++ [spawnMarble sy d]) (emitted + 1) (acc - interval) with ⟨k, hk, he⟩
      refine ⟨k + 1, Nat.succ_le_succ hk, ?_⟩
      rw [show emitLoop sy interval (d :: rest) marbles emitted acc =
          emitLoop sy interval rest (marbles ++ [spawnMarble sy d]) (emitted + 1)
            (acc - interval) from by simp [emitLoop, hc]]
      rw [he]
      refine Prod.ext rfl (Prod.ext ?_ (Prod.ext ?_ ?_))
      · show marbles ++ [spawnMarble sy d] ++ (rest.take k).map (spawnMarble sy) =
          marbles ++ ((d :: rest).take (k + 1)).map (spawnMarble sy)
        simp [List.take_succ_cons]
      · show emitted + 1 + k = emitted + (k + 1)
        omega
      · show acc - interval - k * interval = acc - ((k + 1 : ℕ) : ℚ) * interval
        push_cast
        ring
    · refine ⟨0, Nat.zero_le _, ?_⟩
      simp [emitLoop, hc]

/-- The id-preserving marble rewritings. -/
lemma exitScan_fields (s : SimState) :
    (exitScan s).marbleQueue = s.marbleQueue ∧
    (exitScan s).marblesEmitted = s.marblesEmitted ∧
    (exitScan s).state = s.state ∧ (exitScan s).ending = s.ending :=
  ⟨rfl, rfl, rfl, rfl⟩

lemma end_with_timeout_mapId (s : SimState) :
    (end_with_timeout s).marbles.map Marble.id = s.marbles.map Marble.id :=
  map_comp_pointwise _ _
    (fun m => by by_cases h : m.active <;> simp [h, tieMarble]) s.marbles

/-- `baseInv` is preserved by every tick, with no hypotheses at all:
this covers timeout endings and degenerate rates. -/
lemma runTick_baseInv (Q : List ℕ) (dt : ℚ) (inp : TickInput) (s : SimState)
    (hb : baseInv Q s) : baseInv Q (runTick dt inp s) := by
  obtain ⟨hcount, hqueue, hids, hele, hrank⟩ := hb
  unfold runTick
  by_cases hrun : s.state = .running
  · rw [if_pos hrun]
    unfold update_physics
    set s1 := stepSpace inp.newY s with hs1
    have h1ids : s1.marbles.map Marble.id = Q.take s.marblesEmitted := by
      rw [hs1, stepSpace_mapId]; exact hids
    have h1cnt : s1.marbles.countP (fun m => !m.active) =
        s.marbles.countP fun m => !m.active := stepSpace_countP _ _
    have h1que : s1.marbleQueue = Q.drop s.marblesEmitted := hqueue
    set e := s.marblesEmitted with hE
    -- emission phase: either a no-op or the loop's shape
    have hphase : ∃ k, e + k ≤ Q.length ∧
        (emitPhase dt inp.spawnY s1).marbleQueue = Q.drop (e + k) ∧
        (emitPhase dt inp.spawnY s1).marbles.map Marble.id = Q.take (e + k) ∧
        (emitPhase dt inp.spawnY s1).marblesEmitted = e + k ∧
        (emitPhase dt inp.spawnY s1).marbles.countP (fun m => !m.active) =
          s.marbles.countP (fun m => !m.active) ∧
        (emitPhase dt inp.spawnY s1).finishedRank = s.finishedRank ∧
        (emitPhase dt inp.spawnY s1).marbleCount = Q.length := by
      by_cases hq : s1.marbleQueue.isEmpty
      · refine ⟨0, by omega, ?_⟩
        have hnoop : emitPhase dt inp.spawnY s1 = s1 := by simp [emitPhase, hq]
        rw [hnoop]
        exact ⟨by rw [Nat.add_zero]; exact h1que, by rw [Nat.add_zero]; exact h1ids,
          by rw [Nat.add_zero]; rfl, h1cnt, rfl, hcount⟩
      · rcases emitLoop_shape inp.spawnY (1 / s1.emitRate) s1.marbleQueue s1.marbles
          s1.marblesEmitted (s1.emitAccumulator + dt) with ⟨k, hk, hloop⟩
        have hnoop : emitPhase dt inp.spawnY s1 =
            { s1 with
              marbleQueue := s1.marbleQueue.drop k,
              marbles := s1.marbles ++ (s1.marbleQueue.take k).map (spawnMarble inp.spawnY),
              marblesEmitted := s1.marblesEmitted + k,
              emitAccumulator := s1.emitAccumulator + dt - k * (1 / s1.emitRate) } := by
          simp only [emitPhase, hq, Bool.false_eq_true, if_false, hloop]
        have hkle : e + k ≤ Q.length := by
          rw [h1que, List.length_drop] at hk
          omega
        refine ⟨k, hkle, ?_⟩
        rw [hnoop]
        refine ⟨?_, ?_, rfl, ?_, rfl, hcount⟩
        · show s1.marbleQueue.drop k = _
          rw [h1que, List.drop_drop, Nat.add_comm]
        · show (s1.marbles ++ (s1.marbleQueue.take k).map (spawnMarble inp.spawnY)).map
            Marble.id = _
          rw [List.map_append, h1ids, spawn_mapId, h1que]
          exact (List.take_add Q e k).symm
        · show (s1.marbles ++ (s1.marbleQueue.take k).map (spawnMarble inp.spawnY)).countP
            (fun m => !m.active) = _
          rw [List.countP_append, spawn_countP, h1cnt]
          omega
    rcases hphase with ⟨k, hkle, hpque, hpids, hpemit, hpcnt, hprank, hpcount⟩
    set s2 := emitPhase dt inp.spawnY s1 with hs2
    set s3 := exitScan s2 with hs3
    set c := s2.marbles.countP exitsBottom with hc
    have h3ids : s3.marbles.map Marble.id = Q.take (e + k) := by
      rw [hs3, exitScan_mapId]; exact hpids
    have h3cnt : s3.marbles.countP (fun m => !m.active) =
        s.marbles.countP (fun m => !m.active) + c := by
      rw [hs3, exitScan_countP, hpcnt]
    have h3rank : s3.finishedRank.length = s.finishedRank.length + c := by
      rw [hs3, exitScan_rankLen, hprank]
    have h3len : s3.marbles.length = e + k := by
      have hh := congrArg List.length h3ids
      rw [List.length_map, List.length_take] at hh
      omega
    have b_count : s3.marbleCount = Q.length := hpcount
    have b_queue : s3.marbleQueue = Q.drop (e + k) := hpque
    have b_emit : s3.marblesEmitted = e + k := hpemit
    have b_rankinv : s3.finishedRank.length = s3.marbles.countP fun m => !m.active := by
      rw [h3rank, h3cnt, hrank]
    by_cases hcomp : s3.finishedRank.length = s3.marbleCount
    · have hfc : finishCheck inp.elapsed s3 =
          { s3 with state := .finished, ending := some .byCompletion } := by
        simp [finishCheck, hcomp]
      rw [hfc]
      exact ⟨b_count, by rw [b_emit]; exact b_queue, by rw [b_emit]; exact h3ids,
        by rw [b_emit]; exact hkle, b_rankinv⟩
    · by_cases htime : max 0 (s3.timeLimit - inp.elapsed) ≤ 0
      · have hfc : finishCheck inp.elapsed s3 = end_with_timeout s3 := by
          simp only [finishCheck, if_neg hcomp, if_pos htime]
        rw [hfc]
        refine ⟨b_count, ?_, ?_, ?_, ?_⟩
        · show s3.marbleQueue = Q.drop s3.marblesEmitted
          rw [b_emit]; exact b_queue
        · show (end_with_timeout s3).marbles.map Marble.id = Q.take s3.marblesEmitted
          rw [end_with_timeout_mapId, b_emit]; exact h3ids
        · show s3.marblesEmitted ≤ Q.length
          rw [b_emit]; exact hkle
        · show (end_with_timeout s3).finishedRank.length =
            (end_with_timeout s3).marbles.countP fun m => !m.active
          rw [end_with_timeout_rankLen, end_with_timeout_countP]
          have hsplit := countP_active_add_inactive s3.marbles
          rw [b_rankinv]
          omega
      · have hfc : finishCheck inp.elapsed s3 = s3 := by
          simp only [finishCheck, if_neg hcomp, if_neg htime]
        rw [hfc]
        exact ⟨b_count, by rw [b_emit]; exact b_queue, by rw [b_emit]; exact h3ids,
          by rw [b_emit]; exact hkle, b_rankinv⟩
  · rw [if_neg hrun]
    exact ⟨hcount, hqueue, hids, hele, hrank⟩

lemma runRace_baseInv (Q : List ℕ) (dt : ℚ) :
    ∀ (inputs : List TickInput) (s : SimState),
      baseInv Q s → baseInv Q (runRace dt inputs s) := by
  intro inputs
  induction inputs with
  | nil => intro s hb; exact hb
  | cons inp rest ih =>
    intro s hb
    exact ih (runTick dt inp s) (runTick_baseInv Q dt inp s hb)

/-- Both invariants propagate through a whole race while the wall clock
stays below the limit. -/
lemma runRace_inv (Q : List ℕ) (dt : ℚ) (hdt : 0 < dt) :
    ∀ (inputs : List TickInput) (s : SimState) (T : ℚ),
      0 < s.emitRate → (∀ inp ∈ inputs, inp.elapsed < s.timeLimit) →
      baseInv Q s → emitInv Q T s →
      baseInv Q (runRace dt inputs s) ∧
      emitInv Q (T + inputs.length * dt) (runRace dt inputs s) := by
  intro inputs
  induction inputs with
  | nil =>
    intro s T hrate hel hb he
    refine ⟨hb, ?_⟩
    simpa using he
  | cons inp rest ih =>
    intro s T hrate hel hb he
    obtain ⟨hb1, he1⟩ := runTick_inv Q dt inp T s hdt hrate
      (hel inp (List.mem_cons_self _ _)) hb he
    obtain ⟨t1, t2, _⟩ := runTick_fields dt inp s
    obtain ⟨hb2, he2⟩ := ih (runTick dt inp s) (T + dt) (by rw [t1]; exact hrate)
      (fun i hi => by rw [t2]; exact hel i (List.mem_cons_of_mem _ hi)) hb1 he1
    refine ⟨hb2, ?_⟩
    have hT : T + ((inp :: rest).length : ℚ) * dt = T + dt + (rest.length : ℚ) * dt := by
      push_cast [List.length_cons]
      ring
    rw [hT]
    exact he2

/-- C2.  During a race with constant tick size `dt > 0` and fixed positive
rate, run for any number of ticks during which the wall clock stays below
the time limit: the total number of marbles ever spawned is exactly
`min count ⌊T·rate⌋` for `T = ticks·dt` seconds of simulated time (so it
never exceeds the configured count, which is the initial queue's length),
the spawned marbles are the queue's prefix in FIFO order, the queue holds
the untouched suffix, and no id is spawned twice (when ids are distinct). -/
theorem emission_schedule (Q : List ℕ) (rate timeLimit dt : ℚ) (inputs : List TickInput)
    (hdt : 0 < dt) (hrate : 0 < rate)
    (hel : ∀ inp ∈ inputs, inp.elapsed < timeLimit) :
    (runRace dt inputs (initSimState Q.length rate timeLimit Q)).marblesEmitted =
      min Q.length (⌊(inputs.length : ℚ) * dt * rate⌋.toNat) ∧
    (runRace dt inputs (initSimState Q.length rate timeLimit Q)).marbles.map Marble.id =
      Q.take (runRace dt inputs (initSimState Q.length rate timeLimit Q)).marblesEmitted ∧
    (runRace dt inputs (initSimState Q.length rate timeLimit Q)).marbleQueue =
      Q.drop (runRace dt inputs (initSimState Q.length rate timeLimit Q)).marblesEmitted ∧
    (Q.Nodup →
      ((runRace dt inputs (initSimState Q.length rate timeLimit Q)).marbles.map
        Marble.id).Nodup) := by
  have hb0 : baseInv Q (initSimState Q.length rate timeLimit Q) :=
    ⟨rfl, rfl, rfl, Nat.zero_le _, rfl⟩
  have he0 : emitInv Q 0 (initSimState Q.length rate timeLimit Q) := by
    refine ⟨le_refl 0, ?_, ?_, Or.inl rfl⟩
    · intro _
      constructor
      · show (0 : ℚ) = 0 - ((0 : ℕ) : ℚ) * (1 / rate)
        norm_num
      · show (0 : ℚ) < 1 / rate
        positivity
    · intro h
      have h0 : (0 : ℕ) = Q.length := h
      show ((Q.length : ℕ) : ℚ) * (1 / rate) ≤ 0
      rw [← h0]
      norm_num
  obtain ⟨hb, he⟩ := runRace_inv Q dt hdt inputs (initSimState Q.length rate timeLimit Q) 0
    hrate hel hb0 he0
  obtain ⟨hcount, hqueue, hids, hele, hrank⟩ := hb
  obtain ⟨hacc0, haccrel, hfull, hstate⟩ := he
  have hrf : (runRace dt inputs (initSimState Q.length rate timeLimit Q)).emitRate = rate :=
    (runRace_fields dt inputs _).1
  refine ⟨?_, hids, hqueue, fun hnd => by
    rw [hids]
    exact List.Nodup.sublist (List.take_sublist _ _) hnd⟩
  set sf := runRace dt inputs (initSimState Q.length rate timeLimit Q) with hsf
  set T : ℚ := 0 + (inputs.length : ℚ) * dt with hT
  have hTgoal : (inputs.length : ℚ) * dt * rate = T * rate := by rw [hT]; ring
  by_cases hcase : sf.marblesEmitted < Q.length
  · obtain ⟨haccT, hacclt⟩ := haccrel hcase
    rw [hrf] at haccT hacclt
    have h1 : (sf.marblesEmitted : ℚ) * (1 / rate) ≤ T := by linarith
    have h2 : T < ((sf.marblesEmitted : ℚ) + 1) * (1 / rate) := by
      have : T - (sf.marblesEmitted : ℚ) * (1 / rate) < 1 / rate := by
        rw [← haccT]; exact hacclt
      nlinarith
    have hfl : ⌊T * rate⌋ = (sf.marblesEmitted : ℤ) := by
      rw [Int.floor_eq_iff]
      constructor
      · show ((sf.marblesEmitted : ℤ) : ℚ) ≤ T * rate
        push_cast
        rw [show (sf.marblesEmitted : ℚ) * (1 / rate) = (sf.marblesEmitted : ℚ) / rate
          from by ring] at h1
        exact (div_le_iff hrate).mp h1
      · show T * rate < (sf.marblesEmitted : ℤ) + 1
        push_cast
        rw [show ((sf.marblesEmitted : ℚ) + 1) * (1 / rate) =
          ((sf.marblesEmitted : ℚ) + 1) / rate from by ring] at h2
        exact (lt_div_iff hrate).mp h2
    rw [hTgoal, hfl]
    omega
  · have he2 : sf.marblesEmitted = Q.length := by omega
    have h3 := hfull he2
    rw [hrf] at h3
    have h4 : (Q.length : ℚ) ≤ T * rate := by
      rw [show ((Q.length : ℕ) : ℚ) * (1 / rate) = (Q.length : ℚ) / rate from by ring] at h3
      exact (div_le_iff hrate).mp h3
    have h5 : (Q.length : ℤ) ≤ ⌊T * rate⌋ := Int.le_floor.mpr (by exact_mod_cast h4)
    rw [hTgoal, he2]
    omega

/-- Witness for `emission_schedule`: the spec's own scenario — `count = 5`,
`rate = 1`, fixed `dt = 1/2`; after 5 ticks (2.5 simulated seconds) exactly
2 marbles have been emitted, not 3. -/
theorem emission_schedule_witness :
    ((0 : ℚ) < 1/2 ∧ (0 : ℚ) < 1) ∧
    (runRace (1/2) (List.replicate 5 ⟨fun _ => 0, fun _ => 80, 0⟩)
        (initSimState [1, 2, 3, 4, 5].length 1 10 [1, 2, 3, 4, 5])).marblesEmitted =
      min [1, 2, 3, 4, 5].length
        (⌊((List.replicate 5 (⟨fun _ => 0, fun _ => 80, 0⟩ : TickInput)).length : ℚ) *
          (1/2) * 1⌋.toNat) ∧
    min ([1, 2, 3, 4, 5] : List ℕ).length
        (⌊((List.replicate 5 (⟨fun _ => 0, fun _ => 80, 0⟩ : TickInput)).length : ℚ) *
          (1/2) * 1⌋.toNat) = 2 :=
  ⟨⟨by norm_num, by norm_num⟩,
   (emission_schedule [1, 2, 3, 4, 5] 1 10 (1/2)
      (List.replicate 5 ⟨fun _ => 0, fun _ => 80, 0⟩) (by norm_num) (by norm_num)
      (fun inp hi => by rw [List.eq_of_mem_replicate hi]; norm_num)).1,
   by
     have h5 : ((List.replicate 5 (⟨fun _ => 0, fun _ => 80, 0⟩ : TickInput)).length : ℚ) =
         5 := by simp
     rw [h5]
     norm_num [Int.floor_eq_iff]
     decide⟩

/-- The instrumentation invariant for C4: a completion ending always comes
with a full rank, and a running race has no ending recorded yet. -/
def c4Inv (s : SimState) : Prop :=
  (s.ending = some Ending.byCompletion → s.finishedRank.length = s.marbleCount) ∧
  (s.state = .running → s.ending = none)

lemma runTick_c4Inv (dt : ℚ) (inp : TickInput) (s : SimState) (h : c4Inv s) :
    c4Inv (runTick dt inp s) := by
  obtain ⟨h1, h2⟩ := h
  unfold runTick
  by_cases hrun : s.state = .running
  · rw [if_pos hrun]
    unfold update_physics
    set s3 := exitScan (emitPhase dt inp.spawnY (stepSpace inp.newY s)) with hs3
    have hend3 : s3.ending = s.ending :=
      (emitPhase_fields dt inp.spawnY (stepSpace inp.newY s)).2.2.2.2.1
    by_cases hcomp : s3.finishedRank.length = s3.marbleCount
    · have hfc : finishCheck inp.elapsed s3 =
          { s3 with state := .finished, ending := some .byCompletion } := by
        simp [finishCheck, hcomp]
      rw [hfc]
      exact ⟨fun _ => hcomp, fun hr => RaceState.noConfusion hr⟩
    · by_cases htime : max 0 (s3.timeLimit - inp.elapsed) ≤ 0
      · have hfc : finishCheck inp.elapsed s3 = end_with_timeout s3 := by
          simp only [finishCheck, if_neg hcomp, if_pos htime]
        rw [hfc]
        refine ⟨fun hc => ?_, fun hr => ?_⟩
        · exact absurd hc (by simp [end_with_timeout])
        · exact absurd hr (by simp [end_with_timeout])
      · have hfc : finishCheck inp.elapsed s3 = s3 := by
          simp only [finishCheck, if_neg hcomp, if_neg htime]
        rw [hfc]
        refine ⟨fun hc => ?_, fun _ => ?_⟩
        · rw [hend3, h2 hrun] at hc
          exact absurd hc (by simp)
        · rw [hend3]
          exact h2 hrun
  · rw [if_neg hrun]
    exact ⟨h1, h2⟩

lemma runRace_c4Inv (dt : ℚ) :
    ∀ (inputs : List TickInput) (s : SimState), c4Inv s → c4Inv (runRace dt inputs s) := by
  intro inputs
  induction inputs with
  | nil => intro s h; exact h
  | cons inp rest ih =>
    intro s h
    exact ih (runTick dt inp s) (runTick_c4Inv dt inp s h)

/-- C4 (amended).  In every race, `len(finished_rank)` never exceeds the
configured marble count; when the race ends via the completion-count
condition the rank length *equals* the count; and the completion condition
is evaluated before the timeout condition, so whenever the rank is full the
race ends via completion even on a tick where the time limit has also
expired.  (The converse — rank full only under a completion ending — fails:
a timeout ending can also leave a full rank; see the counterexample.) -/
theorem finishRank_count (Q : List ℕ) (rate timeLimit dt : ℚ) (inputs : List TickInput) :
    ((runRace dt inputs (initSimState Q.length rate timeLimit Q)).finishedRank.length ≤
      (runRace dt inputs (initSimState Q.length rate timeLimit Q)).marbleCount) ∧
    ((runRace dt inputs (initSimState Q.length rate timeLimit Q)).ending =
        some Ending.byCompletion →
      (runRace dt inputs (initSimState Q.length rate timeLimit Q)).finishedRank.length =
        (runRace dt inputs (initSimState Q.length rate timeLimit Q)).marbleCount) ∧
    (∀ (s : SimState) (elapsed : ℚ), s.finishedRank.length = s.marbleCount →
      (finishCheck elapsed s).state = .finished ∧
      (finishCheck elapsed s).ending = some Ending.byCompletion) := by
  have hb0 : baseInv Q (initSimState Q.length rate timeLimit Q) :=
    ⟨rfl, rfl, rfl, Nat.zero_le _, rfl⟩
  obtain ⟨hcount, hqueue, hids, hele, hrank⟩ :=
    runRace_baseInv Q dt inputs (initSimState Q.length rate timeLimit Q) hb0
  refine ⟨?_, ?_, ?_⟩
  · have hlen : (runRace dt inputs (initSimState Q.length rate timeLimit Q)).marbles.length ≤
        Q.length := by
      have hh := congrArg List.length hids
      rw [List.length_map, List.length_take] at hh
      omega
    have hle := List.countP_le_length (p := fun m => !m.active)
      (l := (runRace dt inputs (initSimState Q.length rate timeLimit Q)).marbles)
    rw [hcount, hrank]
    omega
  · have hc4 : c4Inv (runRace dt inputs (initSimState Q.length rate timeLimit Q)) :=
      runRace_c4Inv dt inputs _ ⟨fun hc => Option.noConfusion hc, fun _ => rfl⟩
    exact hc4.1
  · intro s elapsed h
    constructor <;> simp [finishCheck, h]

/-- Witness for `finishRank_count`: the completion branch fires (before any
timeout test) on a concrete full-rank state. -/
theorem finishRank_count_witness :
    (finishCheck 0
      { state := .running, marbleCount := 0, emitRate := 20, timeLimit := 10,
        marbleQueue := [], marbles := [], finishedRank := [], marblesEmitted := 0,
        emitAccumulator := 0, ending := none }).state = .finished ∧
    (finishCheck 0
      { state := .running, marbleCount := 0, emitRate := 20, timeLimit := 10,
        marbleQueue := [], marbles := [], finishedRank := [], marblesEmitted := 0,
        emitAccumulator := 0, ending := none }).ending = some Ending.byCompletion :=
  (finishRank_count [] 1 10 (1/60) []).2.2
    { state := .running, marbleCount := 0, emitRate := 20, timeLimit := 10,
      marbleQueue := [], marbles := [], finishedRank := [], marblesEmitted := 0,
      emitAccumulator := 0, ending := none } 0 (by decide)

/-- C4 (counterexample).  A full rank does *not* imply a completion ending:
with one emitted, still-active marble and the wall clock past the limit, the
tick ends the race by timeout, ties the marble, and leaves
`len(finished_rank) = marble_count = 1`. -/
theorem finishRank_count_counterexample :
    (runTick (1/60) ⟨fun _ => 100, fun _ => 80, 20⟩
      { state := .running, marbleCount := 1, emitRate := 20, timeLimit := 10,
        marbleQueue := [], marbles := [⟨1, true, false, true, 100⟩], finishedRank := [],
        marblesEmitted := 1, emitAccumulator := 0, ending := none }).ending =
      some Ending.byTimeout ∧
    (runTick (1/60) ⟨fun _ => 100, fun _ => 80, 20⟩
      { state := .running, marbleCount := 1, emitRate := 20, timeLimit := 10,
        marbleQueue := [], marbles := [⟨1, true, false, true, 100⟩], finishedRank := [],
        marblesEmitted := 1, emitAccumulator := 0, ending := none }).finishedRank.length =
    (runTick (1/60) ⟨fun _ => 100, fun _ => 80, 20⟩
      { state := .running, marbleCount := 1, emitRate := 20, timeLimit := 10,
        marbleQueue := [], marbles := [⟨1, true, false, true, 100⟩], finishedRank := [],
        marblesEmitted := 1, emitAccumulator := 0, ending := none }).marbleCount := by
  have hstep : runTick (1/60) ⟨fun _ => 100, fun _ => 80, 20⟩
      { state := .running, marbleCount := 1, emitRate := 20, timeLimit := 10,
        marbleQueue := [], marbles := [⟨1, true, false, true, 100⟩], finishedRank := [],
        marblesEmitted := 1, emitAccumulator := 0, ending := none } =
      { state := .finished, marbleCount := 1, emitRate := 20, timeLimit := 10,
        marbleQueue := [], marbles := [⟨1, false, true, false, 100⟩],
        finishedRank := [⟨1, false, true, false, 100⟩],
        marblesEmitted := 1, emitAccumulator := 0, ending := some Ending.byTimeout } := by
    norm_num [runTick, update_physics, stepSpace, emitPhase, exitScan, exitsBottom,
      finishCheck, end_with_timeout, tieMarble, finishMarble, HEIGHT, MARBLE_RADIUS]
  rw [hstep]
  exact ⟨rfl, rfl⟩

/-! ## The editor's load/new operations
(`LevelEditor.load_level`, `LevelEditor.new_level`)

The editor's `load_level(path)` wraps `level_io.load_level` in `try`: on
any exception nothing is assigned; on success it replaces the level model,
clears the history and the three selection fields.  The file path value is
opaque; only whether `current_file` is set is tracked. -/

/-- The `LevelEditor` fields that `load_level` and `new_level` assign. -/
structure EditorState where
  level : LevelState
  levelName : Json
  hasCurrentFile : Bool
  modified : Bool
  history : CommandHistory
  selectedWall : Option ℕ
  selectedPlatform : Option ℕ
  selectedEmitter : Bool

/-- `LevelEditor.load_level`: on a load error, every field is left as it
was (the `except` branch only prints); on success the level model is
replaced, the history cleared, and all three selections cleared. -/
def editorLoadLevel (doc : Json) (e : EditorState) : EditorState :=
  match load_level doc with
  | .error _ => e
  | .ok lvl =>
    { e with
      level := ⟨lvl.walls, lvl.platforms, lvl.emitter⟩,
      levelName := lvl.name,
      hasCurrentFile := true,
      modified := false,
      history := historyClear,
      selectedWall := none,
      selectedPlatform := none,
      selectedEmitter := false }

/-- `LevelEditor.new_level`: reset the level model, the file bookkeeping
and the history, and clear the wall and platform selections — but *not*
`selected_emitter`, which the source never assigns here. -/
def editorNewLevel (e : EditorState) : EditorState :=
  { e with
    level := ⟨[], [], get_default_emitter⟩,
    levelName := .str "untitled",
    hasCurrentFile := false,
    modified := false,
    history := historyClear,
    selectedWall := none,
    selectedPlatform := none }

/-- C10 (amended).  Both `new_level` and a *successful* `load_level` clear
the undo and redo stacks, so immediately afterwards both undo and redo
report failure and change nothing; `load_level` clears the wall, platform
and emitter selections, while `new_level` clears only the wall and platform
selections and leaves `selected_emitter` unchanged (the original claim said
both clear the whole selection; see the counterexample). -/
theorem load_new_clear_history (e : EditorState) (doc : Json) :
    ((editorNewLevel e).history = historyClear ∧
      (∀ s, historyUndo (editorNewLevel e).history s =
        some ((editorNewLevel e).history, s, false)) ∧
      (∀ s, historyRedo (editorNewLevel e).history s =
        some ((editorNewLevel e).history, s, false)) ∧
      (editorNewLevel e).selectedWall = none ∧
      (editorNewLevel e).selectedPlatform = none ∧
      (editorNewLevel e).selectedEmitter = e.selectedEmitter) ∧
    (∀ lvl, load_level doc = .ok lvl →
      (editorLoadLevel doc e).history = historyClear ∧
      (∀ s, historyUndo (editorLoadLevel doc e).history s =
        some ((editorLoadLevel doc e).history, s, false)) ∧
      (∀ s, historyRedo (editorLoadLevel doc e).history s =
        some ((editorLoadLevel doc e).history, s, false)) ∧
      (editorLoadLevel doc e).selectedWall = none ∧
      (editorLoadLevel doc e).selectedPlatform = none ∧
      (editorLoadLevel doc e).selectedEmitter = false) := by
  constructor
  · exact ⟨rfl, fun s => rfl, fun s => rfl, rfl, rfl, rfl⟩
  · intro lvl hl
    have hload : editorLoadLevel doc e =
        { e with
          level := ⟨lvl.walls, lvl.platforms, lvl.emitter⟩,
          levelName := lvl.name,
          hasCurrentFile := true,
          modified := false,
          history := historyClear,
          selectedWall := none,
          selectedPlatform := none,
          selectedEmitter := false } := by
      unfold editorLoadLevel
      rw [hl]
    rw [hload]
    exact ⟨rfl, fun s => rfl, fun s => rfl, rfl, rfl, rfl⟩

/-- Witness for `load_new_clear_history`: loading the empty JSON object
clears the history and all selections. -/
theorem load_new_clear_history_witness :
    load_level (.obj []) =
      .ok ⟨.str "level", [], [], get_default_emitter, []⟩ ∧
    (editorLoadLevel (.obj [])
      ⟨⟨[], [], get_default_emitter⟩, .str "untitled", false, false,
        ⟨[.addWall ((0, 0), (0, 1))], []⟩, some 0, none, true⟩).history = historyClear := by
  refine ⟨rfl, ?_⟩
  exact ((load_new_clear_history
    ⟨⟨[], [], get_default_emitter⟩, .str "untitled", false, false,
      ⟨[.addWall ((0, 0), (0, 1))], []⟩, some 0, none, true⟩ (.obj [])).2
    ⟨.str "level", [], [], get_default_emitter, []⟩ rfl).1

/-- C10 (counterexample).  `new_level` does *not* clear the emitter
selection: starting from a state with the emitter selected, the flag is
still set afterwards. -/
theorem new_level_counterexample :
    (editorNewLevel
      ⟨⟨[], [], get_default_emitter⟩, .str "untitled", false, false, ⟨[], []⟩,
        none, none, true⟩).selectedEmitter = true := rfl

end MarbleRace
